import Mathlib

/-!
Verification of the AVID LaTeX parser (`src/parser/latex_parser.py`).

Texts are modelled as `List Char`; Python string slices `text[a:b]`
become `(text.drop a).take (b - a)`.  The regex machinery of the source
is modelled by deterministic literal matchers: every compiled pattern of
the source is an alternation of literal names inside a fixed frame, so
its matching behaviour at a given position is a case-insensitive (for
the `re.IGNORECASE` patterns) literal comparison, and `re.search` is a
left-to-right scan for the first matching position.  Case folding is
modelled on ASCII letters, matching the behaviour of the source on the
inputs exercised here.  Loops of the source that advance a cursor are
modelled with an explicit fuel argument; fuel `length + 1` always
suffices because every iteration either consumes at least one character
or terminates the loop (this sufficiency is proved, see the
fuel-stability theorem).
-/

/-- ASCII lower-casing, as performed by `str.lower()` / `re.IGNORECASE`
on the ASCII range. -/
def lcase (c : Char) : Char :=
  if 'A' ≤ c ∧ c ≤ 'Z' then Char.ofNat (c.toNat + 32) else c

/-- Whitespace class of Python's `\s` and `str.strip()` (ASCII range). -/
def pyIsSpace (c : Char) : Bool :=
  c = ' ' || c = '\t' || c = '\n' || c = '\r' || c = '\x0b' || c = '\x0c'

/-- `str.strip()`: remove leading and trailing whitespace. -/
def pystrip (l : List Char) : List Char :=
  ((l.dropWhile pyIsSpace).reverse.dropWhile pyIsSpace).reverse

/-- `str.rstrip('*')`: remove trailing `*` characters. -/
def rstripStar (l : List Char) : List Char :=
  (l.reverse.dropWhile (fun c => c = '*')).reverse

/-- Case-sensitive literal match of `pat` against the front of a text. -/
def litMatch : List Char → List Char → Bool
  | [], _ => true
  | _ :: _, [] => false
  | a :: as, b :: bs => if a = b then litMatch as bs else false

/-- Case-insensitive (ASCII) literal match of `pat` against the front of
a text; models matching a `re.escape`d literal under `re.IGNORECASE`. -/
def ciMatch : List Char → List Char → Bool
  | [], _ => true
  | _ :: _, [] => false
  | a :: as, b :: bs => if lcase a = lcase b then ciMatch as bs else false

theorem ciMatch_length_le : ∀ pat l, ciMatch pat l = true → pat.length ≤ l.length := by
  intro pat
  induction pat with
  | nil => intro l _; exact Nat.zero_le _
  | cons a as ih =>
    intro l h
    cases l with
    | nil => simp [ciMatch] at h
    | cons b bs =>
      simp only [ciMatch] at h
      split at h
      · simpa using ih bs h
      · exact absurd h (by simp)

theorem litMatch_length_le : ∀ pat l, litMatch pat l = true → pat.length ≤ l.length := by
  intro pat
  induction pat with
  | nil => intro l _; exact Nat.zero_le _
  | cons a as ih =>
    intro l h
    cases l with
    | nil => simp [litMatch] at h
    | cons b bs =>
      simp only [litMatch] at h
      split at h
      · simpa using ih bs h
      · exact absurd h (by simp)

/-- A case-insensitive match is insensitive to text beyond the pattern's
length: the trailing context is irrelevant. -/
theorem ciMatch_append_of_le :
    ∀ (pat l : List Char) (r : List Char), pat.length ≤ l.length →
      ciMatch pat (l ++ r) = ciMatch pat l := by
  intro pat
  induction pat with
  | nil => intro l r _; rfl
  | cons a as ih =>
    intro l r h
    cases l with
    | nil => simp at h
    | cons b bs =>
      simp only [List.cons_append, ciMatch]
      split
      · exact ih bs r (by simpa using h)
      · rfl

theorem litMatch_append_of_le :
    ∀ (pat l : List Char) (r : List Char), pat.length ≤ l.length →
      litMatch pat (l ++ r) = litMatch pat l := by
  intro pat
  induction pat with
  | nil => intro l r _; rfl
  | cons a as ih =>
    intro l r h
    cases l with
    | nil => simp at h
    | cons b bs =>
      simp only [List.cons_append, litMatch]
      split
      · exact ih bs r (by simpa using h)
      · rfl

/-- A pattern longer than a leading chunk fails on `chunk ++ r` whenever
its prefix of the chunk's length already fails on the chunk. -/
theorem ciMatch_append_of_take :
    ∀ (pat l r : List Char), ciMatch (pat.take l.length) l = false →
      ciMatch pat (l ++ r) = false := by
  intro pat
  induction pat with
  | nil => intro l r h; simp [ciMatch] at h
  | cons a as ih =>
    intro l r h
    cases l with
    | nil => simp [ciMatch] at h
    | cons b bs =>
      simp only [List.length_cons, List.take_succ_cons, ciMatch] at h
      simp only [List.cons_append, ciMatch]
      split at h
      · rename_i hc
        rw [if_pos hc]
        exact ih bs r h
      · rename_i hc
        rw [if_neg hc]

/-- Matching two lists that share an equal-length front under `lcase`
reduces to matching the remainders. -/
theorem ciMatch_append_congr :
    ∀ (a a' b c : List Char), a.map lcase = a'.map lcase →
      ciMatch (a ++ b) (a' ++ c) = ciMatch b c := by
  intro a
  induction a with
  | nil =>
    intro a' b c h
    cases a' with
    | nil => rfl
    | cons x xs => simp at h
  | cons x xs ih =>
    intro a' b c h
    cases a' with
    | nil => simp at h
    | cons y ys =>
      simp only [List.map_cons, List.cons.injEq] at h
      simp only [List.cons_append, ciMatch, if_pos h.1]
      exact ih ys b c h.2

theorem ciMatch_of_map_eq :
    ∀ (pat l : List Char) (r : List Char), pat.map lcase = l.map lcase →
      ciMatch pat (l ++ r) = true := by
  intro pat l r h
  have h2 : ciMatch (pat ++ []) (l ++ r) = ciMatch [] r := ciMatch_append_congr pat l [] r h
  simpa using h2

theorem litMatch_head :
    ∀ (a : Char) (as l : List Char), litMatch (a :: as) l = true → l.head? = some a := by
  intro a as l h
  cases l with
  | nil => simp [litMatch] at h
  | cons b bs =>
    simp only [litMatch] at h
    split at h
    · rename_i hc; simp [hc]
    · exact absurd h (by simp)

theorem ciMatch_head :
    ∀ (a : Char) (as l : List Char), ciMatch (a :: as) l = true →
      ∃ b bs, l = b :: bs ∧ lcase a = lcase b := by
  intro a as l h
  cases l with
  | nil => simp [ciMatch] at h
  | cons b bs =>
    simp only [ciMatch] at h
    split at h
    · rename_i hc; exact ⟨b, bs, rfl, hc⟩
    · exact absurd h (by simp)

/-- Generic model of `re.search(text, pos)` for a matcher `M` operating
on the remaining text `text.drop p`: scan positions left to right and
return the first position where `M` matches, with `M`'s result. -/
def searchRem {α : Type} (M : List Char → Option α) (text : List Char) :
    Nat → Nat → Option (Nat × α)
  | _, 0 => none
  | pos, fuel + 1 =>
    match M (text.drop pos) with
    | some a => some (pos, a)
    | none => if pos < text.length then searchRem M text (pos + 1) fuel else none

theorem searchRem_spec {α : Type} (M : List Char → Option α) (text : List Char) :
    ∀ fuel pos p a, searchRem M text pos fuel = some (p, a) →
      pos ≤ p ∧ M (text.drop p) = some a := by
  intro fuel
  induction fuel with
  | zero => intro pos p a h; simp [searchRem] at h
  | succ f ih =>
    intro pos p a h
    cases hM : M (text.drop pos) with
    | some b =>
      simp only [searchRem, hM, Option.some.injEq, Prod.mk.injEq] at h
      obtain ⟨h1, h2⟩ := h
      subst h1; subst h2
      exact ⟨Nat.le_refl _, hM⟩
    | none =>
      simp only [searchRem, hM] at h
      split at h
      · obtain ⟨h1, h2⟩ := ih (pos + 1) p a h
        exact ⟨Nat.le_of_succ_le h1, h2⟩
      · simp at h

theorem searchRem_found {α : Type} (M : List Char → Option α) (text : List Char) :
    ∀ fuel pos p a, p - pos < fuel → pos ≤ p → M (text.drop p) = some a →
      p ≤ text.length →
      (∀ q, q < p → pos ≤ q → M (text.drop q) = none) →
      searchRem M text pos fuel = some (p, a) := by
  intro fuel
  induction fuel with
  | zero => intro pos p a h; omega
  | succ f ih =>
    intro pos p a hf hle hM hlen hfree
    simp only [searchRem]
    rcases Nat.eq_or_lt_of_le hle with heq | hlt
    · subst heq
      rw [hM]
    · rw [hfree pos hlt (Nat.le_refl _)]
      have hplt : pos < text.length := Nat.lt_of_lt_of_le hlt hlen
      rw [if_pos hplt]
      exact ih (pos + 1) p a (by omega) hlt hM hlen
        (fun q hq hq2 => hfree q hq (by omega))

theorem searchRem_none {α : Type} (M : List Char → Option α) (text : List Char) :
    ∀ fuel pos, pos ≤ text.length →
      (∀ q, q ≤ text.length → pos ≤ q → M (text.drop q) = none) →
      searchRem M text pos fuel = none := by
  intro fuel
  induction fuel with
  | zero => intro pos _ _; rfl
  | succ f ih =>
    intro pos hpos hfree
    simp only [searchRem]
    rw [hfree pos hpos (Nat.le_refl _)]
    by_cases hlt : pos < text.length
    · rw [if_pos hlt]
      exact ih (pos + 1) (by omega) (fun q hq hq2 => hfree q hq (by omega))
    · rw [if_neg hlt]

/-- `\begin` and `\end` keywords. -/
def beginKw : List Char := ['b', 'e', 'g', 'i', 'n']

def endKw : List Char := ['e', 'n', 'd']

/-- Try the marker `\<kw>{<name>*?}` at the front of the remaining text,
star variant first (as the greedy `\*?` of the source does); returns the
number of characters matched. -/
def tryKw (kw name rem : List Char) : Option Nat :=
  let pre : List Char := '\\' :: kw ++ '\x7b' :: name
  if ciMatch (pre ++ ['*', '\x7d']) rem then some (pre.length + 2)
  else if ciMatch (pre ++ ['\x7d']) rem then some (pre.length + 1)
  else none

/-- The matcher of `extract_environment`'s compiled pattern
`\\(begin|end)\{<name>\*?\}` (IGNORECASE) at the front of the remaining
text: `(isBegin, matchedLength)`. -/
def markerRem (name rem : List Char) : Option (Bool × Nat) :=
  match tryKw beginKw name rem with
  | some k => some (true, k)
  | none =>
    match tryKw endKw name rem with
    | some k => some (false, k)
    | none => none

/-- The `\begin{name}` / `\begin{name*}` / `\end{name}` / `\end{name*}`
literal chunks. -/
def beginChunk (name : List Char) : List Char :=
  '\\' :: beginKw ++ '\x7b' :: name ++ ['\x7d']

def beginChunkStar (name : List Char) : List Char :=
  '\\' :: beginKw ++ '\x7b' :: name ++ ['*', '\x7d']

def endChunk (name : List Char) : List Char :=
  '\\' :: endKw ++ '\x7b' :: name ++ ['\x7d']

def endChunkStar (name : List Char) : List Char :=
  '\\' :: endKw ++ '\x7b' :: name ++ ['*', '\x7d']

/-- The loop of `LaTeXParser.extract_environment` (lines 236-252): track
nesting depth over successive begin/end markers of the given base name;
`startPos` is where the content slice begins, `cur` the scan position. -/
def envLoop (name text : List Char) (startPos : Nat) :
    Nat → Nat → Nat → List Char × Nat
  | _, 0, _ => (text.drop startPos, text.length)
  | cur, fuel + 1, depth =>
    if 0 < depth ∧ cur < text.length then
      match searchRem (markerRem name) text cur (text.length + 1 - cur) with
      | none => (text.drop startPos, text.length)
      | some (p, (isB, k)) =>
        let d2 := if isB then depth + 1 else depth - 1
        if d2 = 0 then ((text.drop startPos).take (p - startPos), p + k)
        else envLoop name text startPos (p + k) fuel d2
    else (text.drop startPos, text.length)

/-- `LaTeXParser.extract_environment` (lines 212-252). -/
def extract_environment (text : List Char) (startPos : Nat) (envType : List Char) :
    List Char × Nat :=
  envLoop (rstripStar envType) text startPos startPos (text.length + 1) 1

/-- The proof-environment synonyms of the source (line 60), in source
order. -/
def proofVariants : List (List Char) :=
  [['p', 'r', 'o', 'o', 'f'],
   ['p', 'r', 'u', 'e', 'b', 'a'],
   ['d', 'e', 'm', 'o', 's', 't', 'r', 'a', 'c', 'i', 'o', 'n'],
   ['d', 'e', 'm', 'o', 's', 't', 'r', 'a', 'c', 'i', 'ó', 'n'],
   ['d', 'e', 'm']]

/-- Alternation `(v1|v2|...)\*?\}` inside the frame `\<kw>{...}`:
alternatives are tried in list order, and for each, the starred
continuation first — the backtracking order of the compiled pattern. -/
def altKw (kw : List Char) : List (List Char) → List Char → Option Nat
  | [], _ => none
  | v :: vs, rem =>
    match tryKw kw v rem with
    | some k => some k
    | none => altKw kw vs rem

/-- Matcher of `proof_start_pattern` (line 62) on the remaining text. -/
def proofStartRem (rem : List Char) : Option Nat :=
  altKw beginKw proofVariants rem

/-- Matcher of `proof_end_pattern` (line 65) on the remaining text. -/
def proofEndRem (rem : List Char) : Option Nat :=
  altKw endKw proofVariants rem

/-- The nesting loop of `LaTeXParser.extract_proof` (lines 282-314):
depth is tracked across any proof-kind synonym; `pcs` is the proof
content start. -/
def proofLoop (text : List Char) (pcs : Nat) : Nat → Nat → Nat → List Char × Nat
  | _, 0, _ => (text.drop pcs, text.length)
  | cur, fuel + 1, depth =>
    if 0 < depth ∧ cur < text.length then
      let bm := searchRem proofStartRem text cur (text.length + 1 - cur)
      let em := searchRem proofEndRem text cur (text.length + 1 - cur)
      match bm, em with
      | some (bp, bk), some (ep, ek) =>
        if bp < ep then proofLoop text pcs (bp + bk) fuel (depth + 1)
        else
          if depth - 1 = 0 then ((text.drop pcs).take (ep - pcs), ep + ek)
          else proofLoop text pcs (ep + ek) fuel (depth - 1)
      | some (bp, bk), none => proofLoop text pcs (bp + bk) fuel (depth + 1)
      | none, some (ep, ek) =>
        if depth - 1 = 0 then ((text.drop pcs).take (ep - pcs), ep + ek)
        else proofLoop text pcs (ep + ek) fuel (depth - 1)
      | none, none => (text.drop pcs, text.length)
    else (text.drop pcs, text.length)

/-- `LaTeXParser.extract_proof` (lines 254-314): a proof is associated
only when nothing but whitespace precedes the first proof opening
marker found after `startPos`. -/
def extract_proof (text : List Char) (startPos : Nat) : Option (List Char × Nat) :=
  let remaining := text.drop startPos
  match searchRem proofStartRem remaining 0 (remaining.length + 1) with
  | none => none
  | some (s, k) =>
    if pystrip (remaining.take s) ≠ [] then none
    else
      let pcs := startPos + s + k
      some (proofLoop text pcs pcs (text.length + 1) 1)

/-- `[^}]+\}`: a nonempty brace-free run followed by the closing brace;
returns the captured run and the number of characters consumed. -/
def braceInner (l : List Char) : Option (List Char × Nat) :=
  let inner := l.takeWhile (fun c => ¬ c = '\x7d')
  if 0 < inner.length ∧ (l.drop inner.length).head? = some '\x7d' then
    some (inner, inner.length + 1)
  else none

/-- `\{[^}]+\}`: opening brace, nonempty brace-free run, closing brace. -/
def bracedArg (l : List Char) : Option (List Char × Nat) :=
  match l with
  | '\x7b' :: rest => (braceInner rest).map (fun ik => (ik.1, ik.2 + 1))
  | _ => none

/-- `LaTeXParser.extract_label` (lines 148-174): look for `\label{...}`
as the first non-whitespace token inside a 200-character window after
`startPos`; returns the label (stripped) and the position just past the
label, or no label and the original position. -/
def extract_label (text : List Char) (startPos : Nat) : Option (List Char) × Nat :=
  let searchText := (text.drop startPos).take 200
  let ws := searchText.takeWhile pyIsSpace
  let rest := searchText.drop ws.length
  if litMatch ['\\', 'l', 'a', 'b', 'e', 'l', '\x7b'] rest then
    match braceInner (rest.drop 7) with
    | some (inner, k) => (some (pystrip inner), startPos + ws.length + 7 + k)
    | none => (none, startPos)
  else (none, startPos)

/-- Matcher of the reference pattern `\\(?:eq)?ref\{([^}]+)\}`
(line 139) on the remaining text: greedy optional `eq` first. -/
def refMatchRem (rem : List Char) : Option (List Char × Nat) :=
  if litMatch ['\\', 'e', 'q', 'r', 'e', 'f', '\x7b'] rem then
    (braceInner (rem.drop 7)).map (fun ik => (ik.1, ik.2 + 7))
  else if litMatch ['\\', 'r', 'e', 'f', '\x7b'] rem then
    (braceInner (rem.drop 5)).map (fun ik => (ik.1, ik.2 + 5))
  else none

/-- The `finditer` collection loop of `LaTeXParser.extract_references`
(lines 136-146): left-to-right non-overlapping matches, each stripped
label appended when nonempty and unseen. -/
def refLoop (text : List Char) : Nat → Nat → List (List Char) → List (List Char)
  | _, 0, acc => acc
  | p, fuel + 1, acc =>
    match refMatchRem (text.drop p) with
    | some (g, k) =>
      let r := pystrip g
      refLoop text (p + k) fuel (if r ≠ [] ∧ r ∉ acc then acc ++ [r] else acc)
    | none => if p < text.length then refLoop text (p + 1) fuel acc else acc

/-- `LaTeXParser.extract_references` (lines 126-146). -/
def extract_references (text : List Char) : List (List Char) :=
  refLoop text 0 (text.length + 1) []

/-- Split a text into lines at `\n`, as Python's `str.split('\n')`. -/
def splitLines : List Char → List (List Char)
  | [] => [[]]
  | c :: rest =>
    match splitLines rest with
    | [] => [[]]
    | l :: ls => if c = '\n' then [] :: l :: ls else (c :: l) :: ls

/-- Join lines with `\n`, as Python's `'\n'.join(...)`. -/
def joinLines : List (List Char) → List Char
  | [] => []
  | [l] => l
  | l :: ls => l ++ '\n' :: joinLines ls

/-- The per-line scan of `LaTeXParser.remove_comments` (lines 82-88):
first `%` not immediately preceded by a backslash. -/
def findCommentPosGo : List Char → Nat → Option Char → Option Nat
  | [], _, _ => none
  | c :: rest, i, prev =>
    if c = '%' ∧ (i = 0 ∨ ¬ prev = some '\\') then some i
    else findCommentPosGo rest (i + 1) (some c)

def findCommentPos (line : List Char) : Option Nat :=
  findCommentPosGo line 0 none

def stripCommentLine (line : List Char) : List Char :=
  match findCommentPos line with
  | some i => line.take i
  | none => line

/-- `LaTeXParser.remove_comments` (lines 67-95). -/
def remove_comments (text : List Char) : List Char :=
  joinLines ((splitLines text).map stripCommentLine)

/-- One global-substitution pass of `re.sub`: scan left to right, apply
the matcher `M` (returning a replacement and the number of characters
consumed, always at least 1) at the first position it matches, emit the
replacement, and continue just past the match. -/
def subAll (M : List Char → Option (List Char × Nat)) : List Char → Nat → List Char
  | l, 0 => l
  | l, fuel + 1 =>
    match l with
    | [] => []
    | c :: rest =>
      match M l with
      | some (rep, k) => rep ++ subAll M (l.drop k) fuel
      | none => c :: subAll M rest fuel

/-- Matcher for `\\<cmd>\{[^}]+\}` with replacement either the empty
string or the captured group (the `\1` of `textbf`/`textit`/`emph`). -/
def cmdArgSub (cmd : List Char) (keepInner : Bool) (rem : List Char) :
    Option (List Char × Nat) :=
  if litMatch cmd rem then
    match bracedArg (rem.drop cmd.length) with
    | some (inner, k) => some (if keepInner then inner else [], cmd.length + k)
    | none => none
  else none

/-- Matcher for a bare command such as `\\newpage`, deleted outright. -/
def litSub (cmd : List Char) (rem : List Char) : Option (List Char × Nat) :=
  if litMatch cmd rem then some ([], cmd.length) else none

/-- Matcher for `\n\s*\n\s*\n+` with replacement `\n\n`: at a newline,
the match succeeds when the whitespace run starting there contains at
least three newlines, and extends to just past the last newline of the
run (the greedy backtracking outcome of the pattern). -/
def blankLinesSub (rem : List Char) : Option (List Char × Nat) :=
  match rem with
  | '\n' :: _ =>
    let w := rem.takeWhile pyIsSpace
    if 3 ≤ w.count '\n' then
      some (['\n', '\n'], w.length - (w.reverse.takeWhile (fun c => ¬ c = '\n')).length)
    else none
  | _ => none

/-- Matcher for `[ \t]+` with replacement a single space. -/
def spaceRunSub (rem : List Char) : Option (List Char × Nat) :=
  match rem with
  | c :: _ =>
    if c = ' ' ∨ c = '\t' then
      some ([' '], (rem.takeWhile (fun c => c = ' ' || c = '\t')).length)
    else none
  | [] => none

/-- `LaTeXParser.clean_content` (lines 97-124): the source's sequence of
`re.sub` passes followed by `strip()`. -/
def clean_content (content : List Char) : List Char :=
  let s1 := subAll (cmdArgSub ['\\', 'v', 's', 'p', 'a', 'c', 'e'] false) content (content.length + 1)
  let s2 := subAll (cmdArgSub ['\\', 'h', 's', 'p', 'a', 'c', 'e'] false) s1 (s1.length + 1)
  let s3 := subAll (litSub ['\\', 'n', 'e', 'w', 'p', 'a', 'g', 'e']) s2 (s2.length + 1)
  let s4 := subAll (litSub ['\\', 'c', 'l', 'e', 'a', 'r', 'p', 'a', 'g', 'e']) s3 (s3.length + 1)
  let s5 := subAll (litSub ['\\', 'p', 'a', 'g', 'e', 'b', 'r', 'e', 'a', 'k']) s4 (s4.length + 1)
  let s6 := subAll (cmdArgSub ['\\', 't', 'e', 'x', 't', 'b', 'f'] true) s5 (s5.length + 1)
  let s7 := subAll (cmdArgSub ['\\', 't', 'e', 'x', 't', 'i', 't'] true) s6 (s6.length + 1)
  let s8 := subAll (cmdArgSub ['\\', 'e', 'm', 'p', 'h'] true) s7 (s7.length + 1)
  let s9 := subAll blankLinesSub s8 (s8.length + 1)
  let s10 := subAll spaceRunSub s9 (s9.length + 1)
  pystrip s10

/-- `LaTeXParser.MATH_ENVIRONMENTS` (line 20), in source order. -/
def MATH_ENVIRONMENTS : List (List Char) :=
  ["definition".toList, "theorem".toList, "lemma".toList,
   "proposition".toList, "corollary".toList]

/-- `LaTeXParser.ENVIRONMENT_VARIANTS` (lines 23-38), in source order. -/
def ENVIRONMENT_VARIANTS : List (List Char × List Char) :=
  [("teorema".toList, "theorem".toList),
   ("definicion".toList, "definition".toList),
   ("definición".toList, "definition".toList),
   ("lema".toList, "lemma".toList),
   ("proposicion".toList, "proposition".toList),
   ("proposición".toList, "proposition".toList),
   ("corolario".toList, "corollary".toList),
   ("thm".toList, "theorem".toList),
   ("defn".toList, "definition".toList),
   ("def".toList, "definition".toList),
   ("lem".toList, "lemma".toList),
   ("prop".toList, "proposition".toList),
   ("cor".toList, "corollary".toList),
   ("corol".toList, "corollary".toList)]

def lookupVariant (k : List Char) : Option (List Char) :=
  (ENVIRONMENT_VARIANTS.find? (fun p => p.1 = k)).map (fun p => p.2)

/-- Python's substring test `pat in s`. -/
def containsSub (pat : List Char) : List Char → Bool
  | [] => litMatch pat []
  | c :: rest => litMatch pat (c :: rest) || containsSub pat rest

/-- `env_type.lower().rstrip('*')` (line 186). -/
def envLower (envType : List Char) : List Char :=
  rstripStar (envType.map lcase)

/-- `LaTeXParser.normalize_env_type` (lines 176-210). -/
def normalize_env_type (envType : List Char) : List Char :=
  let env_lower := envLower envType
  match lookupVariant env_lower with
  | some std => std
  | none =>
    if env_lower ∈ MATH_ENVIRONMENTS then env_lower
    else if containsSub "th".toList env_lower || containsSub "teo".toList env_lower then
      "theorem".toList
    else if containsSub "def".toList env_lower then "definition".toList
    else if containsSub "lem".toList env_lower then "lemma".toList
    else if containsSub "prop".toList env_lower then "proposition".toList
    else if containsSub "cor".toList env_lower then "corollary".toList
    else env_lower

/-- `(?:\[[^\]]*\])?` followed by a required `{`-headed continuation:
an opening bracket must be matched to its closing bracket or the whole
match fails (the optional group cannot fall back, because the next
required character is `{`, not `[`); returns characters consumed. -/
def optBracket (l : List Char) : Option Nat :=
  match l with
  | '[' :: rest =>
    let inner := rest.takeWhile (fun c => ¬ c = ']')
    if (rest.drop inner.length).head? = some ']' then some (inner.length + 2) else none
  | _ => some 0

/-- Matcher of `newtheorem_pattern` (lines 329-332):
`\\newtheorem\*?\{([^}]+)\}(?:\[[^\]]*\])?\{[^}]+\}`, case-sensitive;
returns the captured name and characters consumed. -/
def newtheoremRem (rem : List Char) : Option (List Char × Nat) :=
  if litMatch ['\\', 'n', 'e', 'w', 't', 'h', 'e', 'o', 'r', 'e', 'm'] rem then
    let r1 := rem.drop 11
    let st := if r1.head? = some '*' then 1 else 0
    match bracedArg (r1.drop st) with
    | none => none
    | some (g, k1) =>
      let rest := r1.drop (st + k1)
      match optBracket rest with
      | none => none
      | some k2 =>
        match bracedArg (rest.drop k2) with
        | none => none
        | some (_, k3) => some (g, 11 + st + k1 + k2 + k3)
  else none

/-- Matcher of `theoremstyle_pattern` (lines 335-338):
`\\theoremstyle\{[^}]+\}\s*\\newtheorem\*?\{([^}]+)\}`, case-sensitive. -/
def theoremstyleRem (rem : List Char) : Option (List Char × Nat) :=
  if litMatch ['\\', 't', 'h', 'e', 'o', 'r', 'e', 'm', 's', 't', 'y', 'l', 'e'] rem then
    match bracedArg (rem.drop 13) with
    | none => none
    | some (_, k1) =>
      let rest := rem.drop (13 + k1)
      let nws := (rest.takeWhile pyIsSpace).length
      let rest2 := rest.drop nws
      if litMatch ['\\', 'n', 'e', 'w', 't', 'h', 'e', 'o', 'r', 'e', 'm'] rest2 then
        let st := if (rest2.drop 11).head? = some '*' then 1 else 0
        match bracedArg ((rest2.drop 11).drop st) with
        | none => none
        | some (g, k2) => some (g, 13 + k1 + nws + 11 + st + k2)
      else none
  else none

/-- First collection loop of `detect_custom_environments` (lines
341-344): every direct `\newtheorem` capture that is nonempty after
stripping and not canonical is appended — with no already-collected
check. -/
def detectLoop1 (text : List Char) : Nat → Nat → List (List Char) → List (List Char)
  | _, 0, acc => acc
  | p, fuel + 1, acc =>
    match newtheoremRem (text.drop p) with
    | some (g, k) =>
      let n := pystrip g
      detectLoop1 text (p + k) fuel
        (if n ≠ [] ∧ n ∉ MATH_ENVIRONMENTS then acc ++ [n] else acc)
    | none => if p < text.length then detectLoop1 text (p + 1) fuel acc else acc

/-- Second collection loop of `detect_custom_environments` (lines
347-350): the style-then-new form additionally checks the
already-collected list. -/
def detectLoop2 (text : List Char) : Nat → Nat → List (List Char) → List (List Char)
  | _, 0, acc => acc
  | p, fuel + 1, acc =>
    match theoremstyleRem (text.drop p) with
    | some (g, k) =>
      let n := pystrip g
      detectLoop2 text (p + k) fuel
        (if n ≠ [] ∧ n ∉ MATH_ENVIRONMENTS ∧ n ∉ acc then acc ++ [n] else acc)
    | none => if p < text.length then detectLoop2 text (p + 1) fuel acc else acc

/-- `LaTeXParser.detect_custom_environments` (lines 316-352). -/
def detect_custom_environments (text : List Char) : List (List Char) :=
  detectLoop2 text 0 (text.length + 1)
    (detectLoop1 text 0 (text.length + 1) [])

/-- The registered environment-name list built by `__init__` (lines
47-53): base names, variant keys and custom names.  The source stores
them in a Python `set`, whose iteration order is unspecified; the order
only matters for names that are star-or-prefix-ambiguous with each
other, which none of the registered names are, so a fixed order is a
faithful model.  Duplicates are removed, keeping first occurrences. -/
def allEnvs (customs : List (List Char)) : List (List Char) :=
  (MATH_ENVIRONMENTS ++ ENVIRONMENT_VARIANTS.map (fun p => p.1) ++ customs).eraseDups

/-- A match of `env_pattern` (line 56): the raw name as it appears in
the text, the optional bracketed-title group, and characters consumed. -/
structure EnvM where
  rawName : List Char
  titleGroup : Option (List Char)
  len : Nat
deriving DecidableEq

/-- One alternative of `env_pattern`'s name alternation: on success the
raw captured name is the text slice, not the pattern's spelling. -/
def envTryName (v rem : List Char) : Option (List Char × Nat) :=
  match tryKw beginKw v rem with
  | some k => some ((rem.drop 7).take v.length, k)
  | none => none

def envAlt : List (List Char) → List Char → Option (List Char × Nat)
  | [], _ => none
  | v :: vs, rem =>
    match envTryName v rem with
    | some r => some r
    | none => envAlt vs rem

/-- The optional title group `(?:\[([^\]]*)\])?`: group absent when no
bracket opens, or when an opened bracket never closes. -/
def titleOpt (rem : List Char) : Option (List Char) × Nat :=
  match rem with
  | c :: rest =>
    if c = '[' then
      let inner := rest.takeWhile (fun c => ¬ c = ']')
      if (rest.drop inner.length).head? = some ']' then (some inner, inner.length + 2)
      else (none, 0)
    else (none, 0)
  | [] => (none, 0)

/-- Matcher of the full `env_pattern`
`\\begin\{(<names>)\*?\}(?:\[([^\]]*)\])?` on the remaining text. -/
def envRem (envs : List (List Char)) (rem : List Char) : Option EnvM :=
  match envAlt envs rem with
  | none => none
  | some (raw, k) =>
    let t := titleOpt (rem.drop k)
    some ⟨raw, t.1, k + t.2⟩

/-- The extracted-block record of `parse_text` (lines 430-437).
`references` is `none` when the merged list is empty, matching the
source's `all_refs if all_refs else None`. -/
structure Block where
  type : List Char
  label : Option (List Char)
  title : Option (List Char)
  content_latex : List Char
  proof_latex : Option (List Char)
  references : Option (List (List Char))
deriving DecidableEq

/-- The duplicate-avoiding reference merge of lines 424-427. -/
def mergeRefs (a b : List (List Char)) : List (List Char) :=
  b.foldl (fun acc r => if r ∈ acc then acc else acc ++ [r]) a

/-- The loop body of `parse_text` (lines 385-440) for a match of
`env_pattern` starting at `p`: returns the block to emit (if any) and
the position where scanning resumes. -/
def processMatch (text : List Char) (p : Nat) (em : EnvM) : Option Block × Nat :=
  let env_type := normalize_env_type em.rawName
  let title : Option (List Char) :=
    match em.titleGroup with
    | none => none
    | some g => if g = [] then none else some (pystrip g)
  let lab := extract_label text (p + em.len)
  let ce := extract_environment text lab.2 em.rawName
  let content_clean := clean_content ce.1
  if content_clean = [] ∨ (pystrip content_clean).length < 3 then (none, ce.2)
  else
    let content_refs := extract_references ce.1
    match extract_proof text ce.2 with
    | none =>
      (some ⟨env_type, lab.1, title, content_clean, none,
        if content_refs = [] then none else some content_refs⟩, ce.2)
    | some pr =>
      let pc := clean_content pr.1
      let keep : Bool := ¬ (pc ≠ [] ∧ (pystrip pc).length < 3)
      let proof_clean := if keep then some pc else none
      let proof_refs := if keep then extract_references pr.1 else []
      let all_refs := mergeRefs content_refs proof_refs
      (some ⟨env_type, lab.1, title, content_clean, proof_clean,
        if all_refs = [] then none else some all_refs⟩, pr.2)

/-- The main walk of `parse_text` (lines 375-442). -/
def parseLoop (envs : List (List Char)) (text : List Char) : Nat → Nat → List Block
  | _, 0 => []
  | pos, fuel + 1 =>
    if pos < text.length then
      match searchRem (envRem envs) text pos (text.length + 1 - pos) with
      | none => []
      | some (p, em) =>
        match processMatch text p em with
        | (some b, next) => b :: parseLoop envs text next fuel
        | (none, next) => parseLoop envs text next fuel
    else []

/-- `LaTeXParser.parse_text` (lines 354-442), with the walker's fuel
exposed.  The parser object's only parse-relevant mutable state is the
custom-environment list baked into its compiled patterns by `__init__`;
it is modelled as the `customs` argument, and the returned second
component is that state after the call (the `self.__init__(...)`
rebuild on line 373 happens exactly when auto-detection finds a
nonempty list). -/
def parse_textFuel (customs : List (List Char)) (autoDetect : Bool)
    (text : List Char) (fuel : Nat) : List Block × List (List Char) :=
  let t := remove_comments text
  let d := detect_custom_environments t
  let customs2 := if autoDetect ∧ d ≠ [] then d else customs
  (parseLoop (allEnvs customs2) t 0 fuel, customs2)

/-- `LaTeXParser.parse_text` with the fuel that always suffices. -/
def parse_text (customs : List (List Char)) (autoDetect : Bool)
    (text : List Char) : List Block × List (List Char) :=
  parse_textFuel customs autoDetect text ((remove_comments text).length + 1)

/-- Claim C6: `normalize_env_type` lowercases the raw name and strips
trailing stars; a known alias returns its canonical kind; else a
canonical name is returned unchanged; else the substring tests apply in
the fixed source order (theorem-like, then definition-like, then
lemma-like, then proposition-like, then corollary-like), the earlier
test winning when a name contains several trigger fragments; and a name
matching none of them is returned as the lowercased unclassified name. -/
theorem C6_normalize_env_type (s : List Char) :
    (∀ k, lookupVariant (envLower s) = some k → normalize_env_type s = k)
    ∧ (lookupVariant (envLower s) = none → envLower s ∈ MATH_ENVIRONMENTS →
        normalize_env_type s = envLower s)
    ∧ (lookupVariant (envLower s) = none → envLower s ∉ MATH_ENVIRONMENTS →
        (containsSub ['t', 'h'] (envLower s) = true ∨
         containsSub ['t', 'e', 'o'] (envLower s) = true) →
        normalize_env_type s = "theorem".toList)
    ∧ (lookupVariant (envLower s) = none → envLower s ∉ MATH_ENVIRONMENTS →
        containsSub ['t', 'h'] (envLower s) = false →
        containsSub ['t', 'e', 'o'] (envLower s) = false →
        containsSub ['d', 'e', 'f'] (envLower s) = true →
        normalize_env_type s = "definition".toList)
    ∧ (lookupVariant (envLower s) = none → envLower s ∉ MATH_ENVIRONMENTS →
        containsSub ['t', 'h'] (envLower s) = false →
        containsSub ['t', 'e', 'o'] (envLower s) = false →
        containsSub ['d', 'e', 'f'] (envLower s) = false →
        containsSub ['l', 'e', 'm'] (envLower s) = true →
        normalize_env_type s = "lemma".toList)
    ∧ (lookupVariant (envLower s) = none → envLower s ∉ MATH_ENVIRONMENTS →
        containsSub ['t', 'h'] (envLower s) = false →
        containsSub ['t', 'e', 'o'] (envLower s) = false →
        containsSub ['d', 'e', 'f'] (envLower s) = false →
        containsSub ['l', 'e', 'm'] (envLower s) = false →
        containsSub ['p', 'r', 'o', 'p'] (envLower s) = true →
        normalize_env_type s = "proposition".toList)
    ∧ (lookupVariant (envLower s) = none → envLower s ∉ MATH_ENVIRONMENTS →
        containsSub ['t', 'h'] (envLower s) = false →
        containsSub ['t', 'e', 'o'] (envLower s) = false →
        containsSub ['d', 'e', 'f'] (envLower s) = false →
        containsSub ['l', 'e', 'm'] (envLower s) = false →
        containsSub ['p', 'r', 'o', 'p'] (envLower s) = false →
        containsSub ['c', 'o', 'r'] (envLower s) = true →
        normalize_env_type s = "corollary".toList)
    ∧ (lookupVariant (envLower s) = none → envLower s ∉ MATH_ENVIRONMENTS →
        containsSub ['t', 'h'] (envLower s) = false →
        containsSub ['t', 'e', 'o'] (envLower s) = false →
        containsSub ['d', 'e', 'f'] (envLower s) = false →
        containsSub ['l', 'e', 'm'] (envLower s) = false →
        containsSub ['p', 'r', 'o', 'p'] (envLower s) = false →
        containsSub ['c', 'o', 'r'] (envLower s) = false →
        normalize_env_type s = envLower s) := by
  refine ⟨?_, ?_, ?_, ?_, ?_, ?_, ?_, ?_⟩
  · intro k h; simp [normalize_env_type, h]
  · intro h hm; simp [normalize_env_type, h, hm]
  · intro h hm hc
    rcases hc with hc | hc <;>
      simp [normalize_env_type, h, hm, hc]
  · intro h hm h1 h2 h3; simp [normalize_env_type, h, hm, h1, h2, h3]
  · intro h hm h1 h2 h3 h4; simp [normalize_env_type, h, hm, h1, h2, h3, h4]
  · intro h hm h1 h2 h3 h4 h5
    simp [normalize_env_type, h, hm, h1, h2, h3, h4, h5]
  · intro h hm h1 h2 h3 h4 h5 h6
    simp [normalize_env_type, h, hm, h1, h2, h3, h4, h5, h6]
  · intro h hm h1 h2 h3 h4 h5 h6
    simp [normalize_env_type, h, hm, h1, h2, h3, h4, h5, h6]

/-- Witness for C6, exercising every branch at concrete names: the
alias `THM*`, the canonical `lemma`, the multi-fragment `thdef` (the
theorem-like test wins over the definition-like one), `xdefx`, `xlemx`,
`xpropx`, `xcorx`, and the unclassifiable `zzz`. -/
theorem C6_witness :
    normalize_env_type "THM*".toList = "theorem".toList
    ∧ normalize_env_type "lemma".toList = "lemma".toList
    ∧ normalize_env_type "thdef".toList = "theorem".toList
    ∧ normalize_env_type "xdefx".toList = "definition".toList
    ∧ normalize_env_type "xlemx".toList = "lemma".toList
    ∧ normalize_env_type "xpropx".toList = "proposition".toList
    ∧ normalize_env_type "xcorx".toList = "corollary".toList
    ∧ normalize_env_type "zzz".toList = "zzz".toList :=
  ⟨(C6_normalize_env_type ("THM*".toList)).1 ("theorem".toList) (by decide),
   (C6_normalize_env_type ("lemma".toList)).2.1 (by decide) (by decide),
   (C6_normalize_env_type ("thdef".toList)).2.2.1 (by decide) (by decide)
     (Or.inl (by decide)),
   (C6_normalize_env_type ("xdefx".toList)).2.2.2.1 (by decide) (by decide)
     (by decide) (by decide) (by decide),
   (C6_normalize_env_type ("xlemx".toList)).2.2.2.2.1 (by decide) (by decide)
     (by decide) (by decide) (by decide) (by decide),
   (C6_normalize_env_type ("xpropx".toList)).2.2.2.2.2.1 (by decide) (by decide)
     (by decide) (by decide) (by decide) (by decide) (by decide),
   (C6_normalize_env_type ("xcorx".toList)).2.2.2.2.2.2.1 (by decide) (by decide)
     (by decide) (by decide) (by decide) (by decide) (by decide) (by decide),
   (C6_normalize_env_type ("zzz".toList)).2.2.2.2.2.2.2 (by decide) (by decide)
     (by decide) (by decide) (by decide) (by decide) (by decide) (by decide)⟩

/-- Number of non-whitespace characters, the quantity the specification
measures content by. -/
def nonWhitespaceCount (l : List Char) : Nat :=
  (l.filter (fun c => pyIsSpace c = false)).length

theorem processMatch_some_spec (text : List Char) (p : Nat) (em : EnvM)
    (b : Block) (n : Nat) :
    processMatch text p em = (some b, n) →
      b.content_latex ≠ [] ∧ 3 ≤ (pystrip b.content_latex).length ∧
      (∀ pf, b.proof_latex = some pf → pf = [] ∨ 3 ≤ (pystrip pf).length) := by
  obtain ⟨bt, bl, bti, bc, bp, br⟩ := b
  intro h
  simp only [processMatch] at h
  split at h
  · simp at h
  · rename_i hguard
    push_neg at hguard
    split at h
    · simp only [Prod.mk.injEq, Option.some.injEq, Block.mk.injEq] at h
      obtain ⟨⟨_, _, _, hbc, hbp, _⟩, _⟩ := h
      subst hbc; subst hbp
      refine ⟨hguard.1, hguard.2, ?_⟩
      intro pf hpf
      exact absurd hpf (by simp)
    · rename_i pr hpr
      simp only [Prod.mk.injEq, Option.some.injEq, Block.mk.injEq] at h
      obtain ⟨⟨_, _, _, hbc, hbp, _⟩, _⟩ := h
      subst hbc; subst hbp
      refine ⟨hguard.1, hguard.2, ?_⟩
      intro pf hpf
      split at hpf
      · rename_i hk
        simp only [Option.some.injEq] at hpf
        subst hpf
        simp only [ne_eq, decide_not, Bool.not_eq_true', decide_eq_false_iff_not] at hk
        by_cases hnil : clean_content pr.1 = []
        · exact Or.inl hnil
        · right
          rcases not_and_or.mp hk with hc | hc
          · exact absurd (not_not.mp hc) hnil
          · exact Nat.le_of_not_lt hc
      · exact absurd hpf (by simp)

theorem parseLoop_mem (envs : List (List Char)) (text : List Char) :
    ∀ fuel pos b, b ∈ parseLoop envs text pos fuel →
      ∃ p em n, processMatch text p em = (some b, n) := by
  intro fuel
  induction fuel with
  | zero => intro pos b h; simp [parseLoop] at h
  | succ f ih =>
    intro pos b h
    simp only [parseLoop] at h
    split at h
    · cases hs : searchRem (envRem envs) text pos (text.length + 1 - pos) with
      | none => rw [hs] at h; simp at h
      | some pe =>
        obtain ⟨p, em⟩ := pe
        simp only [hs] at h
        cases hpm : processMatch text p em with
        | mk ob next =>
          cases ob with
          | some b2 =>
            simp only [hpm, List.mem_cons] at h
            rcases h with h | h
            · subst h; exact ⟨p, em, next, hpm⟩
            · exact ih next b h
          | none =>
            simp only [hpm] at h
            exact ih next b h
    · simp at h

theorem parse_text_mem (customs : List (List Char)) (auto : Bool)
    (text : List Char) (b : Block) :
    b ∈ (parse_text customs auto text).1 →
      ∃ p em n, processMatch (remove_comments text) p em = (some b, n) := by
  intro h
  exact parseLoop_mem _ _ _ _ _ h

/-- Claim C2 is false as stated: the source's minimum-content check is
`len(content_clean.strip()) < 3`, which counts interior whitespace.  On
this document the emitted block's normalized content is `a b`, which
has only 2 non-whitespace characters, yet the block is emitted. -/
theorem C2_counterexample :
    ((parse_text [] true
        ("\\begin\x7btheorem\x7da b\\end\x7btheorem\x7d".toList)).1.map
      Block.content_latex) = ["a b".toList]
    ∧ nonWhitespaceCount ("a b".toList) < 3 := by
  constructor
  · decide
  · decide

/-- Claim C2, amended: a StatementBlock is emitted only if its
normalized content is nonempty and its trimmed length (leading and
trailing whitespace removed, interior whitespace still counted) is at
least 3; content at exactly trimmed length 3 is kept. -/
theorem C2_min_content_trimmed (customs : List (List Char)) (auto : Bool)
    (text : List Char) (b : Block) :
    b ∈ (parse_text customs auto text).1 →
      b.content_latex ≠ [] ∧ 3 ≤ (pystrip b.content_latex).length := by
  intro h
  obtain ⟨p, em, n, hpm⟩ := parse_text_mem customs auto text b h
  obtain ⟨h1, h2, _⟩ := processMatch_some_spec _ p em b n hpm
  exact ⟨h1, h2⟩

/-- Witness for the amended C2, at the 3-character boundary: content
`abc` (trimmed length exactly 3) is kept. -/
theorem C2_witness :
    (⟨"theorem".toList, none, none, "abc".toList, none, none⟩ : Block) ∈
      (parse_text [] true
        ("\\begin\x7btheorem\x7dabc\\end\x7btheorem\x7d".toList)).1
    ∧ ("abc".toList ≠ [] ∧ 3 ≤ (pystrip ("abc".toList)).length) :=
  ⟨by decide,
   C2_min_content_trimmed [] true
     ("\\begin\x7btheorem\x7dabc\\end\x7btheorem\x7d".toList)
     (⟨"theorem".toList, none, none, "abc".toList, none, none⟩ : Block)
     (by decide)⟩

/-- Claim C3 is false as stated: when the proof environment's cleaned
content is the empty string, the source's guard
`if proof_clean and len(proof_clean.strip()) < 3` is skipped (the empty
string is falsy), so the emitted block carries the empty string as its
proof — a present value with 0 non-whitespace characters — rather than
an absent field. -/
theorem C3_counterexample :
    (parse_text [] true
        ("\\begin\x7btheorem\x7dabc\\end\x7btheorem\x7d\\begin\x7bproof\x7d\\end\x7bproof\x7d".toList)).1 =
      [⟨"theorem".toList, none, none, "abc".toList, some [], none⟩]
    ∧ nonWhitespaceCount ([] : List Char) < 3 := by
  constructor
  · decide
  · decide

/-- Claim C3, amended: for every emitted block, a present `proof` value
is either the empty string (the falsy-guard case above) or has trimmed
length (interior whitespace counted) at least 3; a nonempty cleaned
proof of trimmed length below 3 is replaced by an absent field. -/
theorem C3_proof_min_trimmed (customs : List (List Char)) (auto : Bool)
    (text : List Char) (b : Block) :
    b ∈ (parse_text customs auto text).1 →
      ∀ pf, b.proof_latex = some pf → pf = [] ∨ 3 ≤ (pystrip pf).length := by
  intro h
  obtain ⟨p, em, n, hpm⟩ := parse_text_mem customs auto text b h
  exact (processMatch_some_spec _ p em b n hpm).2.2

/-- Witness for the amended C3: a kept proof with content `xyz`. -/
theorem C3_witness :
    (⟨"theorem".toList, none, none, "abc".toList, some ("xyz".toList), none⟩ : Block) ∈
      (parse_text [] true
        ("\\begin\x7btheorem\x7dabc\\end\x7btheorem\x7d\\begin\x7bproof\x7dxyz\\end\x7bproof\x7d".toList)).1
    ∧ ("xyz".toList = [] ∨ 3 ≤ (pystrip ("xyz".toList)).length) :=
  ⟨by decide,
   C3_proof_min_trimmed [] true
     ("\\begin\x7btheorem\x7dabc\\end\x7btheorem\x7d\\begin\x7bproof\x7dxyz\\end\x7bproof\x7d".toList)
     (⟨"theorem".toList, none, none, "abc".toList, some ("xyz".toList), none⟩ : Block)
     (by decide) ("xyz".toList) rfl⟩

/-- Claim C7 is false as stated: the first collection loop of
`detect_custom_environments` (direct `\newtheorem` declarations, lines
341-344) does not check the already-collected list, so a twice-declared
name is returned twice — the returned list can contain duplicates. -/
theorem C7_counterexample :
    detect_custom_environments
        ("\\newtheorem\x7bgoal\x7d\x7bG\x7d\\newtheorem\x7bgoal\x7d\x7bG\x7d".toList) =
      ["goal".toList, "goal".toList]
    ∧ ¬ (detect_custom_environments
        ("\\newtheorem\x7bgoal\x7d\x7bG\x7d\\newtheorem\x7bgoal\x7d\x7bG\x7d".toList)).Nodup := by
  constructor
  · decide
  · decide

theorem detectLoop2_nodup (text : List Char) :
    ∀ fuel p acc, acc.Nodup → (detectLoop2 text p fuel acc).Nodup := by
  intro fuel
  induction fuel with
  | zero => intro p acc hacc; exact hacc
  | succ f ih =>
    intro p acc hacc
    cases hm : theoremstyleRem (text.drop p) with
    | some gk =>
      obtain ⟨g, k⟩ := gk
      simp only [detectLoop2, hm]
      by_cases hc : pystrip g ≠ [] ∧ pystrip g ∉ MATH_ENVIRONMENTS ∧ pystrip g ∉ acc
      · rw [if_pos hc]
        refine ih _ _ ?_
        simp [List.nodup_append, hacc, hc.2.2]
      · rw [if_neg hc]
        exact ih _ _ hacc
    | none =>
      simp only [detectLoop2, hm]
      split
      · exact ih _ _ hacc
      · exact hacc

/-- Claim C7, amended: names captured by the direct `\newtheorem` form
are appended whenever nonempty and non-canonical with no
already-collected check (so duplicates among them survive), while names
captured by the style-then-new form are additionally checked against
the collected list; hence the returned list is duplicate-free whenever
the directly-captured names are themselves duplicate-free. -/
theorem C7_nodup_of_loop1_nodup (text : List Char) :
    (detectLoop1 text 0 (text.length + 1) []).Nodup →
      (detect_custom_environments text).Nodup := by
  intro h
  exact detectLoop2_nodup text _ _ _ h

/-- Witness for the amended C7: a document declaring `alpha` directly
and `beta` through a `\theoremstyle` pair; the direct captures are
duplicate-free and so is the result. -/
theorem C7_witness :
    (detectLoop1
        ("\\newtheorem\x7balpha\x7d\x7bA\x7d\\theoremstyle\x7bplain\x7d\\newtheorem\x7bbeta\x7d\x7bB\x7d".toList)
        0 ("\\newtheorem\x7balpha\x7d\x7bA\x7d\\theoremstyle\x7bplain\x7d\\newtheorem\x7bbeta\x7d\x7bB\x7d".toList).length.succ []).Nodup
    ∧ (detect_custom_environments
        ("\\newtheorem\x7balpha\x7d\x7bA\x7d\\theoremstyle\x7bplain\x7d\\newtheorem\x7bbeta\x7d\x7bB\x7d".toList)).Nodup :=
  ⟨by decide,
   C7_nodup_of_loop1_nodup
     ("\\newtheorem\x7balpha\x7d\x7bA\x7d\\theoremstyle\x7bplain\x7d\\newtheorem\x7bbeta\x7d\x7bB\x7d".toList)
     (by decide)⟩

/-- Claim C8 is false as stated: `parse_text` rebuilds the registry via
`self.__init__(custom_environments=custom_envs)` only when detection
finds a nonempty list (line 371), so custom names registered while
parsing document A persist into a later parse of a document B that
declares no custom environments.  Here A declares `goal` without using
it, and B uses `goal` without declaring it: a fresh parser extracts no
block from B, but the same parser after parsing A extracts one. -/
theorem C8_counterexample :
    (parse_text [] true
        ("\\begin\x7bgoal\x7dxyz\\end\x7bgoal\x7d".toList)).1 = []
    ∧ (parse_text
        (parse_text [] true ("\\newtheorem\x7bgoal\x7d\x7bG\x7d".toList)).2 true
        ("\\begin\x7bgoal\x7dxyz\\end\x7bgoal\x7d".toList)).1 =
      [⟨"goal".toList, none, none, "xyz".toList, none, none⟩] := by
  constructor
  · decide
  · decide

/-- Claim C8, amended: the block sequence of document B is independent
of any previously accumulated parser state provided B's auto-detection
finds at least one custom name — the registry is then rebuilt, before
any block extraction, from the fixed base table, the fixed variant
table, and only B's discovered names.  When B declares no custom
environments the rebuild is skipped and custom names from an earlier
parse can persist and change B's parse (see the counterexample). -/
theorem C8_registry_rebuild (cs1 cs2 : List (List Char)) (B : List Char) :
    detect_custom_environments (remove_comments B) ≠ [] →
      parse_text cs1 true B = parse_text cs2 true B := by
  intro h
  simp only [parse_text, parse_textFuel, if_pos (And.intro trivial h)]

/-- Witness for the amended C8: document B declares its own custom
environment, so a stale-state parser and a fresh parser agree on it. -/
theorem C8_witness :
    detect_custom_environments
        (remove_comments
          ("\\newtheorem\x7bgoal\x7d\x7bG\x7d\\begin\x7bgoal\x7dxyz\\end\x7bgoal\x7d".toList)) ≠ []
    ∧ parse_text ["stale".toList] true
        ("\\newtheorem\x7bgoal\x7d\x7bG\x7d\\begin\x7bgoal\x7dxyz\\end\x7bgoal\x7d".toList) =
      parse_text [] true
        ("\\newtheorem\x7bgoal\x7d\x7bG\x7d\\begin\x7bgoal\x7dxyz\\end\x7bgoal\x7d".toList) :=
  ⟨by decide,
   C8_registry_rebuild ["stale".toList] []
     ("\\newtheorem\x7bgoal\x7d\x7bG\x7d\\begin\x7bgoal\x7dxyz\\end\x7bgoal\x7d".toList)
     (by decide)⟩

theorem tryKw_spec (kw name rem : List Char) (k : Nat) :
    tryKw kw name rem = some k → 1 ≤ k ∧ k ≤ rem.length := by
  intro h
  simp only [tryKw] at h
  split at h
  · rename_i hm
    simp only [Option.some.injEq] at h
    have hle := ciMatch_length_le _ _ hm
    simp only [List.length_append, List.length_cons] at hle h ⊢
    omega
  · split at h
    · rename_i hm
      simp only [Option.some.injEq] at h
      have hle := ciMatch_length_le _ _ hm
      simp only [List.length_append, List.length_cons] at hle h ⊢
      omega
    · simp at h

theorem markerRem_spec (name rem : List Char) (b : Bool) (k : Nat) :
    markerRem name rem = some (b, k) → 1 ≤ k ∧ k ≤ rem.length := by
  intro h
  simp only [markerRem] at h
  cases h1 : tryKw beginKw name rem with
  | some k1 =>
    rw [h1] at h
    simp only [Option.some.injEq, Prod.mk.injEq] at h
    obtain ⟨_, hk⟩ := h
    subst hk
    exact tryKw_spec _ _ _ _ h1
  | none =>
    rw [h1] at h
    cases h2 : tryKw endKw name rem with
    | some k2 =>
      rw [h2] at h
      simp only [Option.some.injEq, Prod.mk.injEq] at h
      obtain ⟨_, hk⟩ := h
      subst hk
      exact tryKw_spec _ _ _ _ h2
    | none => rw [h2] at h; simp at h

theorem altKw_spec (kw : List Char) :
    ∀ (vs : List (List Char)) (rem : List Char) (k : Nat),
      altKw kw vs rem = some k → 1 ≤ k ∧ k ≤ rem.length := by
  intro vs
  induction vs with
  | nil => intro rem k h; simp [altKw] at h
  | cons v vs ih =>
    intro rem k h
    simp only [altKw] at h
    cases h1 : tryKw kw v rem with
    | some k1 =>
      rw [h1] at h
      simp only [Option.some.injEq] at h
      subst h
      exact tryKw_spec _ _ _ _ h1
    | none => rw [h1] at h; exact ih rem k h

theorem headSome_lt_length (l : List Char) (n : Nat) (c : Char) :
    (l.drop n).head? = some c → n < l.length := by
  intro h
  by_contra hn
  rw [List.drop_eq_nil_of_le (by omega)] at h
  simp at h

theorem titleOpt_spec (l : List Char) : (titleOpt l).2 ≤ l.length := by
  cases l with
  | nil => simp [titleOpt]
  | cons c rest =>
    simp only [titleOpt]
    by_cases hc : c = '['
    · rw [if_pos hc]
      split
      · rename_i hh
        have := headSome_lt_length rest _ _ hh
        simp only [List.length_cons]
        omega
      · simp
    · rw [if_neg hc]
      simp

theorem envTryName_spec (v rem : List Char) (raw : List Char) (k : Nat) :
    envTryName v rem = some (raw, k) → 1 ≤ k ∧ k ≤ rem.length := by
  intro h
  simp only [envTryName] at h
  cases h1 : tryKw beginKw v rem with
  | some k1 =>
    rw [h1] at h
    simp only [Option.some.injEq, Prod.mk.injEq] at h
    obtain ⟨_, hk⟩ := h
    subst hk
    exact tryKw_spec _ _ _ _ h1
  | none => rw [h1] at h; simp at h

theorem envAlt_spec :
    ∀ (vs : List (List Char)) (rem : List Char) (raw : List Char) (k : Nat),
      envAlt vs rem = some (raw, k) → 1 ≤ k ∧ k ≤ rem.length := by
  intro vs
  induction vs with
  | nil => intro rem raw k h; simp [envAlt] at h
  | cons v vs ih =>
    intro rem raw k h
    simp only [envAlt] at h
    cases h1 : envTryName v rem with
    | some r =>
      rw [h1] at h
      simp only [Option.some.injEq] at h
      subst h
      exact envTryName_spec _ _ _ _ h1
    | none => rw [h1] at h; exact ih rem raw k h

theorem envRem_spec (envs : List (List Char)) (rem : List Char) (em : EnvM) :
    envRem envs rem = some em → 1 ≤ em.len ∧ em.len ≤ rem.length := by
  intro h
  simp only [envRem] at h
  cases h1 : envAlt envs rem with
  | some rk =>
    obtain ⟨raw, k⟩ := rk
    rw [h1] at h
    simp only [Option.some.injEq] at h
    subst h
    obtain ⟨hk1, hk2⟩ := envAlt_spec envs rem raw k h1
    have ht := titleOpt_spec (rem.drop k)
    simp only [List.length_drop] at ht
    constructor
    · exact Nat.le_trans hk1 (Nat.le_add_right _ _)
    · simp only
      omega
  | none => rw [h1] at h; simp at h

/-- Every successful search yields a match end within the text and past
the match start. -/
theorem searchRem_marker_bounds {α : Type} (M : List Char → Option α)
    (meas : α → Nat) (text : List Char)
    (hM : ∀ rem a, M rem = some a → 1 ≤ meas a ∧ meas a ≤ rem.length) :
    ∀ fuel pos p a, searchRem M text pos fuel = some (p, a) →
      pos ≤ p ∧ p + meas a ≤ text.length ∧ p < p + meas a := by
  intro fuel pos p a h
  obtain ⟨h1, h2⟩ := searchRem_spec M text fuel pos p a h
  obtain ⟨h3, h4⟩ := hM _ _ h2
  simp only [List.length_drop] at h4
  exact ⟨h1, by omega, by omega⟩

theorem envLoop_pos (name text : List Char) (s : Nat) :
    ∀ fuel cur d, (envLoop name text s cur fuel d).2 = text.length ∨
      (cur < (envLoop name text s cur fuel d).2 ∧
        (envLoop name text s cur fuel d).2 ≤ text.length) := by
  intro fuel
  induction fuel with
  | zero => intro cur d; left; rfl
  | succ f ih =>
    intro cur d
    simp only [envLoop]
    split
    · cases hs : searchRem (markerRem name) text cur (text.length + 1 - cur) with
      | none => left; rfl
      | some pa =>
        obtain ⟨p, isB, k⟩ := pa
        obtain ⟨hb1, hb2, hb3⟩ :=
          searchRem_marker_bounds (markerRem name) (fun bk => bk.2) text
            (fun rem bk h => markerRem_spec name rem bk.1 bk.2 (by rw [← h])) _ _ _ _ hs
        cases isB with
        | true =>
          dsimp only
          rw [if_pos (show (true : Bool) = true from rfl)]
          rw [if_neg (by omega : ¬ d + 1 = 0)]
          rcases ih (p + k) (d + 1) with h | ⟨h1, h2⟩
          · left; exact h
          · right; omega
        | false =>
          dsimp only
          rw [if_neg (show ¬ (false : Bool) = true from by simp)]
          by_cases hd : d - 1 = 0
          · rw [if_pos hd]
            right
            exact ⟨by omega, by omega⟩
          · rw [if_neg hd]
            rcases ih (p + k) (d - 1) with h | ⟨h1, h2⟩
            · left; exact h
            · right; omega
    · left; rfl

theorem extract_environment_pos (text : List Char) (s : Nat) (envType : List Char) :
    (extract_environment text s envType).2 = text.length ∨
      (s < (extract_environment text s envType).2 ∧
        (extract_environment text s envType).2 ≤ text.length) :=
  envLoop_pos (rstripStar envType) text s (text.length + 1) s 1

theorem proofLoop_pos (text : List Char) (pcs : Nat) :
    ∀ fuel cur d, (proofLoop text pcs cur fuel d).2 = text.length ∨
      (cur < (proofLoop text pcs cur fuel d).2 ∧
        (proofLoop text pcs cur fuel d).2 ≤ text.length) := by
  intro fuel
  induction fuel with
  | zero => intro cur d; left; rfl
  | succ f ih =>
    intro cur d
    simp only [proofLoop]
    split
    · cases hb : searchRem proofStartRem text cur (text.length + 1 - cur) with
      | none =>
        cases he : searchRem proofEndRem text cur (text.length + 1 - cur) with
        | none => left; rfl
        | some pa =>
          obtain ⟨ep, ek⟩ := pa
          obtain ⟨h1, h2, h3⟩ :=
            searchRem_marker_bounds proofEndRem (fun k => k) text
              (fun rem k h => altKw_spec endKw proofVariants rem k h) _ _ _ _ he
          dsimp only
          by_cases hd : d - 1 = 0
          · rw [if_pos hd]
            right
            exact ⟨by omega, by omega⟩
          · rw [if_neg hd]
            rcases ih (ep + ek) (d - 1) with h | ⟨h4, h5⟩
            · left; exact h
            · right; omega
      | some pb =>
        obtain ⟨bp, bk⟩ := pb
        obtain ⟨hb1, hb2, hb3⟩ :=
          searchRem_marker_bounds proofStartRem (fun k => k) text
            (fun rem k h => altKw_spec beginKw proofVariants rem k h) _ _ _ _ hb
        cases he : searchRem proofEndRem text cur (text.length + 1 - cur) with
        | none =>
          dsimp only
          rcases ih (bp + bk) (d + 1) with h | ⟨h4, h5⟩
          · left; exact h
          · right; omega
        | some pa =>
          obtain ⟨ep, ek⟩ := pa
          obtain ⟨he1, he2, he3⟩ :=
            searchRem_marker_bounds proofEndRem (fun k => k) text
              (fun rem k h => altKw_spec endKw proofVariants rem k h) _ _ _ _ he
          dsimp only
          by_cases hbe : bp < ep
          · rw [if_pos hbe]
            rcases ih (bp + bk) (d + 1) with h | ⟨h4, h5⟩
            · left; exact h
            · right; omega
          · rw [if_neg hbe]
            by_cases hd : d - 1 = 0
            · rw [if_pos hd]
              right
              exact ⟨by omega, by omega⟩
            · rw [if_neg hd]
              rcases ih (ep + ek) (d - 1) with h | ⟨h4, h5⟩
              · left; exact h
              · right; omega
    · left; rfl

theorem extract_proof_pos (text : List Char) (s : Nat) (c : List Char) (e : Nat) :
    extract_proof text s = some (c, e) →
      e = text.length ∨ (s < e ∧ e ≤ text.length) := by
  intro h
  simp only [extract_proof] at h
  cases hs : searchRem proofStartRem (text.drop s) 0 ((text.drop s).length + 1) with
  | none => rw [hs] at h; simp at h
  | some pa =>
    obtain ⟨srel, k⟩ := pa
    simp only [hs] at h
    split at h
    · simp at h
    · simp only [Option.some.injEq] at h
      obtain ⟨hr1, hr2⟩ := searchRem_spec proofStartRem (text.drop s) _ _ _ _ hs
      obtain ⟨hk1, hk2⟩ := altKw_spec beginKw proofVariants _ _ hr2
      simp only [List.length_drop] at hk2
      have hdl : (text.drop s).length = text.length - s := by simp
      rcases proofLoop_pos text (s + srel + k) (text.length + 1) (s + srel + k) 1 with
        hp | ⟨hp1, hp2⟩
      · left
        rw [h] at hp
        exact hp
      · right
        rw [h] at hp1 hp2
        have hp1e : s + srel + k < e := hp1
        have hp2e : e ≤ text.length := hp2
        exact ⟨by omega, hp2e⟩

theorem extract_label_pos (text : List Char) (s : Nat) :
    s ≤ (extract_label text s).2 := by
  simp only [extract_label]
  split
  · split
    · dsimp only
      omega
    · exact Nat.le_refl s
  · exact Nat.le_refl s

theorem processMatch_advance (text : List Char) (p : Nat) (em : EnvM)
    (hlen : 1 ≤ em.len) :
    (processMatch text p em).2 = text.length ∨
      (p < (processMatch text p em).2 ∧ (processMatch text p em).2 ≤ text.length) := by
  have hlab := extract_label_pos text (p + em.len)
  have hce := extract_environment_pos text (extract_label text (p + em.len)).2 em.rawName
  simp only [processMatch]
  split
  · rcases hce with h | ⟨h1, h2⟩
    · left; exact h
    · right; exact ⟨by omega, h2⟩
  · cases hpr : extract_proof text
        (extract_environment text (extract_label text (p + em.len)).2 em.rawName).2 with
    | none =>
      dsimp only
      rcases hce with h | ⟨h1, h2⟩
      · left; exact h
      · right; exact ⟨by omega, h2⟩
    | some pr =>
      dsimp only
      have hpp := extract_proof_pos text
        (extract_environment text (extract_label text (p + em.len)).2 em.rawName).2
        pr.1 pr.2 (by rw [hpr])
      rcases hpp with h | ⟨h1, h2⟩
      · left; exact h
      · right
        rcases hce with hc | ⟨hc1, hc2⟩
        · exact ⟨by omega, h2⟩
        · exact ⟨by omega, h2⟩

theorem parseLoop_ge (envs : List (List Char)) (text : List Char) (pos : Nat)
    (h : text.length ≤ pos) : ∀ fuel, parseLoop envs text pos fuel = [] := by
  intro fuel
  cases fuel with
  | zero => rfl
  | succ f =>
    simp only [parseLoop]
    rw [if_neg (by omega)]

theorem parseLoop_fuel (envs : List (List Char)) (text : List Char) :
    ∀ f1 f2 pos, text.length - pos < f1 → text.length - pos < f2 →
      parseLoop envs text pos f1 = parseLoop envs text pos f2 := by
  intro f1
  induction f1 with
  | zero => intro f2 pos h1 _; omega
  | succ f ih =>
    intro f2 pos h1 h2
    cases f2 with
    | zero => omega
    | succ g =>
      by_cases hp : pos < text.length
      · simp only [parseLoop, if_pos hp]
        cases hs : searchRem (envRem envs) text pos (text.length + 1 - pos) with
        | none => rfl
        | some pe =>
          obtain ⟨q, em⟩ := pe
          show (match processMatch text q em with
            | (some b, next) => b :: parseLoop envs text next f
            | (none, next) => parseLoop envs text next f) =
            (match processMatch text q em with
            | (some b, next) => b :: parseLoop envs text next g
            | (none, next) => parseLoop envs text next g)
          obtain ⟨hq1, hq2⟩ := searchRem_spec _ text _ _ _ _ hs
          obtain ⟨hl1, _⟩ := envRem_spec envs _ em hq2
          have hadv := processMatch_advance text q em hl1
          cases hpm : processMatch text q em with
          | mk ob next =>
            rw [hpm] at hadv
            have hadv2 : next = text.length ∨ (q < next ∧ next ≤ text.length) := hadv
            have htail : parseLoop envs text next f = parseLoop envs text next g := by
              rcases hadv2 with h | ⟨ha1, ha2⟩
              · rw [parseLoop_ge envs text next (by omega) f,
                  parseLoop_ge envs text next (by omega) g]
              · exact ih g next (by omega) (by omega)
            cases ob with
            | some b =>
              show b :: parseLoop envs text next f = b :: parseLoop envs text next g
              rw [htail]
            | none =>
              show parseLoop envs text next f = parseLoop envs text next g
              exact htail
      · rw [parseLoop_ge envs text pos (by omega) (f + 1),
          parseLoop_ge envs text pos (by omega) (g + 1)]

/-- Claim C9: `parse_text` terminates — its scan position strictly
advances on every iteration, so any fuel beyond the cleaned text's
length yields the same block list (first conjunct) — and it returns a
list for any input without failing, the empty list in particular when
no registered opening marker occurs anywhere in the cleaned document
(second conjunct); a missing closing marker only truncates the affected
block to end-of-document (`envLoop`/`proofLoop` return
`(text.drop start, text.length)` in that case, see their definitions). -/
theorem C9_termination :
    (∀ (customs : List (List Char)) (auto : Bool) (text : List Char) (fuel : Nat),
        (remove_comments text).length < fuel →
        parse_textFuel customs auto text fuel = parse_text customs auto text)
    ∧ (∀ (customs : List (List Char)) (auto : Bool) (text : List Char),
        searchRem (envRem (allEnvs (parse_text customs auto text).2))
            (remove_comments text) 0 ((remove_comments text).length + 1) = none →
        (parse_text customs auto text).1 = []) := by
  constructor
  · intro customs auto text fuel hf
    simp only [parse_text, parse_textFuel]
    refine Prod.ext ?_ rfl
    exact parseLoop_fuel _ _ fuel _ 0 (by omega) (by omega)
  · intro customs auto text hs
    simp only [parse_text, parse_textFuel] at hs ⊢
    by_cases hp : 0 < (remove_comments text).length
    · simp only [parseLoop, if_pos hp]
      rw [show (remove_comments text).length + 1 - 0 = (remove_comments text).length + 1
        from by omega, hs]
    · simp only [parseLoop]
      rw [if_neg (by omega)]

/-- Witness for C9 at a concrete document: extra fuel does not change
the result, and a document with no recognized environment yields the
empty block list. -/
theorem C9_witness :
    ((remove_comments ("hello \\begin\x7btheorem\x7dabc\\end\x7btheorem\x7d".toList)).length <
        100
      ∧ parse_textFuel [] true
          ("hello \\begin\x7btheorem\x7dabc\\end\x7btheorem\x7d".toList) 100 =
        parse_text [] true ("hello \\begin\x7btheorem\x7dabc\\end\x7btheorem\x7d".toList))
    ∧ (parse_text [] true ("no markup here".toList)).1 = [] :=
  ⟨⟨by decide,
    C9_termination.1 [] true ("hello \\begin\x7btheorem\x7dabc\\end\x7btheorem\x7d".toList)
      100 (by decide)⟩,
   C9_termination.2 [] true ("no markup here".toList) (by decide)⟩

/-- The content-end position a statement match leads to: the second
component of `extract_environment` as invoked by the walker. -/
def contentEnd (text : List Char) (p : Nat) (em : EnvM) : Nat :=
  (extract_environment text (extract_label text (p + em.len)).2 em.rawName).2

/-- Claim C4: a proof is associated to a statement if and only if only
whitespace separates the statement's content end from the first proof
opening marker.  Conjunct 1: if no proof opening marker matches
anywhere after `startPos`, no proof is associated.  Conjunct 2: if the
first proof opening marker after `startPos` sits at relative offset `q`,
then non-whitespace text before it means no proof is associated, and
whitespace-only text before it means a proof is associated.  Conjunct 3:
when no proof is associated, the walker resumes at the statement's
content end. -/
theorem C4_proof_adjacency (text : List Char) (startPos : Nat) :
    ((∀ q, q ≤ (text.drop startPos).length →
        proofStartRem ((text.drop startPos).drop q) = none) →
      extract_proof text startPos = none)
    ∧ (∀ q k, proofStartRem ((text.drop startPos).drop q) = some k →
        q ≤ (text.drop startPos).length →
        (∀ r, r < q → proofStartRem ((text.drop startPos).drop r) = none) →
        (pystrip ((text.drop startPos).take q) ≠ [] →
            extract_proof text startPos = none)
        ∧ (pystrip ((text.drop startPos).take q) = [] →
            (extract_proof text startPos).isSome = true))
    ∧ (∀ (p : Nat) (em : EnvM),
        extract_proof text (contentEnd text p em) = none →
        (processMatch text p em).2 = contentEnd text p em) := by
  refine ⟨?_, ?_, ?_⟩
  · intro hfree
    simp only [extract_proof]
    rw [searchRem_none proofStartRem (text.drop startPos) _ 0 (Nat.zero_le _)
      (fun q hq _ => hfree q hq)]
  · intro q k hq hqlen hfree
    have hfound : searchRem proofStartRem (text.drop startPos) 0
        ((text.drop startPos).length + 1) = some (q, k) :=
      searchRem_found proofStartRem (text.drop startPos) _ 0 q k (by omega)
        (Nat.zero_le _) hq hqlen (fun r hr _ => hfree r hr)
    constructor
    · intro hns
      simp only [extract_proof, hfound]
      rw [if_pos hns]
    · intro hws
      simp only [extract_proof, hfound]
      rw [if_neg (by simp [hws])]
      rfl
  · intro p em hnone
    simp only [contentEnd] at hnone ⊢
    simp only [processMatch]
    split
    · rfl
    · rw [hnone]

/-- Witness for C4: a document with no proof marker associates none; a
proof opening preceded by non-whitespace (`xx`) is not associated while
one preceded by whitespace only is; and when no proof is associated the
walker resumes at the statement's content end. -/
theorem C4_witness :
    extract_proof ("ab".toList) 0 = none
    ∧ extract_proof ("xx\\begin\x7bproof\x7dab\\end\x7bproof\x7d".toList) 0 = none
    ∧ (extract_proof ("  \\begin\x7bproof\x7dab\\end\x7bproof\x7d".toList) 0).isSome = true
    ∧ (processMatch ("\\begin\x7btheorem\x7dabc\\end\x7btheorem\x7d".toList) 0
        ⟨"theorem".toList, none, 15⟩).2 =
      contentEnd ("\\begin\x7btheorem\x7dabc\\end\x7btheorem\x7d".toList) 0
        ⟨"theorem".toList, none, 15⟩ :=
  ⟨(C4_proof_adjacency ("ab".toList) 0).1 (by decide),
   ((C4_proof_adjacency ("xx\\begin\x7bproof\x7dab\\end\x7bproof\x7d".toList) 0).2.1 2 13
     (by decide) (by decide) (by decide)).1 (by decide),
   ((C4_proof_adjacency ("  \\begin\x7bproof\x7dab\\end\x7bproof\x7d".toList) 0).2.1 2 13
     (by decide) (by decide) (by decide)).2 (by decide),
   (C4_proof_adjacency ("\\begin\x7btheorem\x7dabc\\end\x7btheorem\x7d".toList) 0).2.2 0
     ⟨"theorem".toList, none, 15⟩ (by decide)⟩

theorem ciMatch_cons_eq (a b : Char) (as bs : List Char) (h : lcase a = lcase b) :
    ciMatch (a :: as) (b :: bs) = ciMatch as bs := by
  simp [ciMatch, h]

theorem ciMatch_cons_ne (a b : Char) (as bs : List Char) (h : ¬ lcase a = lcase b) :
    ciMatch (a :: as) (b :: bs) = false := by
  simp [ciMatch, h]

/-- The starred marker pattern fails on an unstarred chunk: the
character after the name is `}` where the pattern wants `*`. -/
theorem tryKw_chunk_nostar (kw nm nm2 r : List Char)
    (h : nm2.map lcase = nm.map lcase) :
    tryKw kw nm (('\\' :: kw ++ '\x7b' :: nm2 ++ ['\x7d']) ++ r) =
      some (kw.length + nm.length + 3) := by
  have hlen : nm2.length = nm.length := by
    have := congrArg List.length h
    simpa using this
  have hpre : ('\\' :: kw ++ '\x7b' :: nm).map lcase =
      ('\\' :: kw ++ '\x7b' :: nm2).map lcase := by
    simp [List.map_append, h]
  have hstar : ciMatch (('\\' :: kw ++ '\x7b' :: nm) ++ ['*', '\x7d'])
      ((('\\' :: kw ++ '\x7b' :: nm2) ++ ['\x7d']) ++ r) = false := by
    apply ciMatch_append_of_take
    have hl2 : (('\\' :: kw ++ '\x7b' :: nm2) ++ ['\x7d']).length =
        ('\\' :: kw ++ '\x7b' :: nm).length + 1 := by
      simp [hlen]
      omega
    rw [hl2, List.take_append 1]
    have : (['*', '\x7d'] : List Char).take 1 = ['*'] := rfl
    rw [this, ciMatch_append_congr _ _ _ _ hpre]
    decide
  have hnostar : ciMatch (('\\' :: kw ++ '\x7b' :: nm) ++ ['\x7d'])
      ((('\\' :: kw ++ '\x7b' :: nm2) ++ ['\x7d']) ++ r) = true := by
    rw [List.append_assoc]
    exact ciMatch_of_map_eq _ _ _ (by simp [List.map_append, h])
  have hshape : ('\\' :: kw ++ '\x7b' :: nm2 ++ ['\x7d']) ++ r =
      ((('\\' :: kw ++ '\x7b' :: nm2) ++ ['\x7d']) ++ r) := by
    simp [List.append_assoc]
  rw [hshape]
  simp only [tryKw, hstar, hnostar]
  simp
  omega

/-- The starred marker pattern succeeds on a starred chunk. -/
theorem tryKw_chunk_star (kw nm nm2 r : List Char)
    (h : nm2.map lcase = nm.map lcase) :
    tryKw kw nm (('\\' :: kw ++ '\x7b' :: nm2 ++ ['*', '\x7d']) ++ r) =
      some (kw.length + nm.length + 4) := by
  have hstar : ciMatch (('\\' :: kw ++ '\x7b' :: nm) ++ ['*', '\x7d'])
      ((('\\' :: kw ++ '\x7b' :: nm2) ++ ['*', '\x7d']) ++ r) = true := by
    rw [List.append_assoc]
    exact ciMatch_of_map_eq _ _ _ (by simp [List.map_append, h])
  have hshape : ('\\' :: kw ++ '\x7b' :: nm2 ++ ['*', '\x7d']) ++ r =
      ((('\\' :: kw ++ '\x7b' :: nm2) ++ ['*', '\x7d']) ++ r) := by
    simp [List.append_assoc]
  rw [hshape]
  simp only [tryKw, hstar]
  simp
  omega

/-- A keyword whose first letter differs from the text's second
character cannot match there. -/
theorem tryKw_ne_head (k0 : Char) (ks nm : List Char) (c : Char) (rest : List Char)
    (hne : ¬ lcase k0 = lcase c) :
    tryKw (k0 :: ks) nm ('\\' :: c :: rest) = none := by
  have h1 : ciMatch (('\\' :: (k0 :: ks) ++ '\x7b' :: nm) ++ ['*', '\x7d'])
      ('\\' :: c :: rest) = false := by
    simp only [List.cons_append]
    rw [ciMatch_cons_eq _ _ _ _ rfl, ciMatch_cons_ne _ _ _ _ hne]
  have h2 : ciMatch (('\\' :: (k0 :: ks) ++ '\x7b' :: nm) ++ ['\x7d'])
      ('\\' :: c :: rest) = false := by
    simp only [List.cons_append]
    rw [ciMatch_cons_eq _ _ _ _ rfl, ciMatch_cons_ne _ _ _ _ hne]
  simp only [tryKw, List.cons_append] at h1 h2 ⊢
  rw [h1, h2]
  simp

theorem markerRem_beginChunk (nm nm2 r : List Char)
    (h : nm2.map lcase = nm.map lcase) :
    markerRem nm (beginChunk nm2 ++ r) = some (true, nm.length + 8) := by
  simp only [markerRem, beginChunk]
  rw [tryKw_chunk_nostar beginKw nm nm2 r h]
  show some (true, beginKw.length + nm.length + 3) = some (true, nm.length + 8)
  rw [show beginKw.length = 5 from rfl, show 5 + nm.length + 3 = nm.length + 8 from by omega]

theorem markerRem_beginChunkStar (nm nm2 r : List Char)
    (h : nm2.map lcase = nm.map lcase) :
    markerRem nm (beginChunkStar nm2 ++ r) = some (true, nm.length + 9) := by
  simp only [markerRem, beginChunkStar]
  rw [tryKw_chunk_star beginKw nm nm2 r h]
  show some (true, beginKw.length + nm.length + 4) = some (true, nm.length + 9)
  rw [show beginKw.length = 5 from rfl, show 5 + nm.length + 4 = nm.length + 9 from by omega]

theorem markerRem_endChunk (nm nm2 r : List Char)
    (h : nm2.map lcase = nm.map lcase) :
    markerRem nm (endChunk nm2 ++ r) = some (false, nm.length + 6) := by
  have hshape : endChunk nm2 ++ r =
      '\\' :: 'e' :: ('n' :: 'd' :: '\x7b' :: (nm2 ++ ['\x7d'] ++ r)) := by
    simp [endChunk, endKw]
  have hb : tryKw beginKw nm (endChunk nm2 ++ r) = none := by
    rw [hshape]
    show tryKw ('b' :: ['e', 'g', 'i', 'n']) nm _ = none
    exact tryKw_ne_head 'b' ['e', 'g', 'i', 'n'] nm 'e' _ (by decide)
  simp only [markerRem, hb, endChunk]
  rw [tryKw_chunk_nostar endKw nm nm2 r h]
  show some (false, endKw.length + nm.length + 3) = some (false, nm.length + 6)
  rw [show endKw.length = 3 from rfl, show 3 + nm.length + 3 = nm.length + 6 from by omega]

theorem markerRem_endChunkStar (nm nm2 r : List Char)
    (h : nm2.map lcase = nm.map lcase) :
    markerRem nm (endChunkStar nm2 ++ r) = some (false, nm.length + 7) := by
  have hshape : endChunkStar nm2 ++ r =
      '\\' :: 'e' :: ('n' :: 'd' :: '\x7b' :: (nm2 ++ ['*', '\x7d'] ++ r)) := by
    simp [endChunkStar, endKw]
  have hb : tryKw beginKw nm (endChunkStar nm2 ++ r) = none := by
    rw [hshape]
    show tryKw ('b' :: ['e', 'g', 'i', 'n']) nm _ = none
    exact tryKw_ne_head 'b' ['e', 'g', 'i', 'n'] nm 'e' _ (by decide)
  simp only [markerRem, hb, endChunkStar]
  rw [tryKw_chunk_star endKw nm nm2 r h]
  show some (false, endKw.length + nm.length + 4) = some (false, nm.length + 7)
  rw [show endKw.length = 3 from rfl, show 3 + nm.length + 4 = nm.length + 7 from by omega]

theorem beginChunk_length (nm : List Char) : (beginChunk nm).length = nm.length + 8 := by
  simp [beginChunk, beginKw]

theorem beginChunkStar_length (nm : List Char) :
    (beginChunkStar nm).length = nm.length + 9 := by
  simp [beginChunkStar, beginKw]

theorem endChunk_length (nm : List Char) : (endChunk nm).length = nm.length + 6 := by
  simp [endChunk, endKw]

theorem endChunkStar_length (nm : List Char) :
    (endChunkStar nm).length = nm.length + 7 := by
  simp [endChunkStar, endKw]

/-- No begin/end marker of the given base name matches at any position
`q` with `lo ≤ q < hi`. -/
def markerFree (nm text : List Char) (lo hi : Nat) : Prop :=
  ∀ q, q < hi → lo ≤ q → markerRem nm (text.drop q) = none

instance markerFreeDec (nm text : List Char) (lo hi : Nat) :
    Decidable (markerFree nm text lo hi) := by
  unfold markerFree
  infer_instance

/-- The document shape of the nesting scenario: an opening marker, then
filler, then a nested same-name opening (starred, case-variant
spelling), filler, the nested closing, filler, the outer closing
(starred), and trailing text. -/
def c1Text (nm nm2 s2 s3 s4 s5 : List Char) : List Char :=
  beginChunk nm ++ s2 ++ beginChunkStar nm2 ++ s3 ++ endChunk nm2 ++ s4 ++
    endChunkStar nm ++ s5

theorem envLoop_step_open (name text : List Char) (s cur d f p k : Nat)
    (hguard : 0 < d ∧ cur < text.length)
    (hs : searchRem (markerRem name) text cur (text.length + 1 - cur) =
      some (p, (true, k))) :
    envLoop name text s cur (f + 1) d = envLoop name text s (p + k) f (d + 1) := by
  simp only [envLoop]
  rw [if_pos hguard, hs]
  dsimp only
  rw [if_pos (show (true : Bool) = true from rfl)]
  rw [if_neg (by omega : ¬ d + 1 = 0)]

theorem envLoop_step_close (name text : List Char) (s cur d f p k : Nat)
    (hguard : 0 < d ∧ cur < text.length)
    (hs : searchRem (markerRem name) text cur (text.length + 1 - cur) =
      some (p, (false, k)))
    (hd : ¬ d - 1 = 0) :
    envLoop name text s cur (f + 1) d = envLoop name text s (p + k) f (d - 1) := by
  simp only [envLoop]
  rw [if_pos hguard, hs]
  dsimp only
  rw [if_neg (show ¬ (false : Bool) = true from by simp)]
  rw [if_neg hd]

theorem envLoop_step_close0 (name text : List Char) (s cur d f p k : Nat)
    (hguard : 0 < d ∧ cur < text.length)
    (hs : searchRem (markerRem name) text cur (text.length + 1 - cur) =
      some (p, (false, k)))
    (hd : d - 1 = 0) :
    envLoop name text s cur (f + 1) d = ((text.drop s).take (p - s), p + k) := by
  simp only [envLoop]
  rw [if_pos hguard, hs]
  dsimp only
  rw [if_neg (show ¬ (false : Bool) = true from by simp)]
  rw [if_pos hd]

theorem envLoop_none (name text : List Char) (s cur d : Nat)
    (hcur : cur ≤ text.length)
    (hfree : ∀ q, q ≤ text.length → cur ≤ q → markerRem name (text.drop q) = none) :
    ∀ fuel, envLoop name text s cur fuel d = (text.drop s, text.length) := by
  intro fuel
  cases fuel with
  | zero => rfl
  | succ f =>
    simp only [envLoop]
    split
    · rw [searchRem_none (markerRem name) text _ _ hcur hfree]
    · rfl

/-- Claim C1: the balanced block scanner tracks a nesting depth
starting at 1 over successive begin/end markers of the raw name,
case-insensitively and with or without a trailing star.  Conjunct 1: in
a document whose open marker is followed by a same-name nested
begin/end pair (spelled in a case variant `nm2`, the opener starred)
and then the outer closing marker (starred), the nested pair is
balanced first, and the scanner returns the slice from the start offset
to the outer closing marker's start — which includes the nested
instance — together with the offset just past that closing marker.
Conjunct 2: with no closing marker at all, the remainder of the text to
end-of-document is returned. -/
theorem C1_balanced_scanner :
    (∀ (envType nm nm2 s2 s3 s4 s5 : List Char),
      rstripStar envType = nm →
      nm2.map lcase = nm.map lcase →
      markerFree nm (c1Text nm nm2 s2 s3 s4 s5) (nm.length + 8)
        (nm.length + 8 + s2.length) →
      markerFree nm (c1Text nm nm2 s2 s3 s4 s5)
        (nm.length + 8 + s2.length + (nm.length + 9))
        (nm.length + 8 + s2.length + (nm.length + 9) + s3.length) →
      markerFree nm (c1Text nm nm2 s2 s3 s4 s5)
        (nm.length + 8 + s2.length + (nm.length + 9) + s3.length + (nm.length + 6))
        (nm.length + 8 + s2.length + (nm.length + 9) + s3.length + (nm.length + 6) +
          s4.length) →
      extract_environment (c1Text nm nm2 s2 s3 s4 s5) (nm.length + 8) envType =
        (s2 ++ beginChunkStar nm2 ++ s3 ++ endChunk nm2 ++ s4,
          nm.length + 8 + s2.length + (nm.length + 9) + s3.length + (nm.length + 6) +
            s4.length + (nm.length + 7)))
    ∧ (∀ (envType nm s2 : List Char),
      rstripStar envType = nm →
      markerFree nm (beginChunk nm ++ s2) (nm.length + 8)
        ((beginChunk nm ++ s2).length + 1) →
      extract_environment (beginChunk nm ++ s2) (nm.length + 8) envType =
        (s2, (beginChunk nm ++ s2).length)) := by
  constructor
  · intro envType nm nm2 s2 s3 s4 s5 hnm h hf1 hf2 hf3
    have hlen2 : nm2.length = nm.length := by simpa using congrArg List.length h
    have hTlen : (c1Text nm nm2 s2 s3 s4 s5).length =
        nm.length + 8 + s2.length + (nm.length + 9) + s3.length + (nm.length + 6) +
          s4.length + (nm.length + 7) + s5.length := by
      simp [c1Text, beginChunk, beginChunkStar, endChunk, endChunkStar, beginKw,
        endKw, hlen2]
      omega
    have hd0 : (c1Text nm nm2 s2 s3 s4 s5).drop (nm.length + 8) =
        (s2 ++ beginChunkStar nm2 ++ s3 ++ endChunk nm2 ++ s4) ++
          (endChunkStar nm ++ s5) := by
      rw [show c1Text nm nm2 s2 s3 s4 s5 = beginChunk nm ++
          ((s2 ++ beginChunkStar nm2 ++ s3 ++ endChunk nm2 ++ s4) ++
            (endChunkStar nm ++ s5)) from by simp [c1Text, List.append_assoc]]
      rw [show nm.length + 8 = (beginChunk nm).length from (beginChunk_length nm).symm]
      exact List.drop_left _ _
    have hd1 : (c1Text nm nm2 s2 s3 s4 s5).drop (nm.length + 8 + s2.length) =
        beginChunkStar nm2 ++ (s3 ++ (endChunk nm2 ++ (s4 ++ (endChunkStar nm ++ s5)))) := by
      rw [show c1Text nm nm2 s2 s3 s4 s5 = (beginChunk nm ++ s2) ++
          (beginChunkStar nm2 ++ (s3 ++ (endChunk nm2 ++ (s4 ++ (endChunkStar nm ++ s5)))))
          from by simp [c1Text, List.append_assoc]]
      rw [show nm.length + 8 + s2.length = (beginChunk nm ++ s2).length from by
        simp [beginChunk_length]]
      exact List.drop_left _ _
    have hd2 : (c1Text nm nm2 s2 s3 s4 s5).drop
        (nm.length + 8 + s2.length + (nm.length + 9) + s3.length) =
        endChunk nm2 ++ (s4 ++ (endChunkStar nm ++ s5)) := by
      rw [show c1Text nm nm2 s2 s3 s4 s5 = (beginChunk nm ++ s2 ++ beginChunkStar nm2 ++ s3) ++
          (endChunk nm2 ++ (s4 ++ (endChunkStar nm ++ s5)))
          from by simp [c1Text, List.append_assoc]]
      rw [show nm.length + 8 + s2.length + (nm.length + 9) + s3.length =
          (beginChunk nm ++ s2 ++ beginChunkStar nm2 ++ s3).length from by
        simp [beginChunk_length, beginChunkStar_length, hlen2]
        omega]
      exact List.drop_left _ _
    have hd3 : (c1Text nm nm2 s2 s3 s4 s5).drop
        (nm.length + 8 + s2.length + (nm.length + 9) + s3.length + (nm.length + 6) +
          s4.length) =
        endChunkStar nm ++ s5 := by
      rw [show c1Text nm nm2 s2 s3 s4 s5 =
          (beginChunk nm ++ s2 ++ beginChunkStar nm2 ++ s3 ++ endChunk nm2 ++ s4) ++
          (endChunkStar nm ++ s5)
          from by simp [c1Text, List.append_assoc]]
      rw [show nm.length + 8 + s2.length + (nm.length + 9) + s3.length + (nm.length + 6) +
          s4.length =
          (beginChunk nm ++ s2 ++ beginChunkStar nm2 ++ s3 ++ endChunk nm2 ++ s4).length
          from by
        simp [beginChunk_length, beginChunkStar_length, endChunk_length, hlen2]
        omega]
      exact List.drop_left _ _
    have hM1 : markerRem nm ((c1Text nm nm2 s2 s3 s4 s5).drop
        (nm.length + 8 + s2.length)) = some (true, nm.length + 9) := by
      rw [hd1]
      exact markerRem_beginChunkStar nm nm2 _ h
    have hM2 : markerRem nm ((c1Text nm nm2 s2 s3 s4 s5).drop
        (nm.length + 8 + s2.length + (nm.length + 9) + s3.length)) =
        some (false, nm.length + 6) := by
      rw [hd2]
      exact markerRem_endChunk nm nm2 _ h
    have hM3 : markerRem nm ((c1Text nm nm2 s2 s3 s4 s5).drop
        (nm.length + 8 + s2.length + (nm.length + 9) + s3.length + (nm.length + 6) +
          s4.length)) = some (false, nm.length + 7) := by
      rw [hd3]
      exact markerRem_endChunkStar nm nm _ (by rfl)
    have hs1 : searchRem (markerRem nm) (c1Text nm nm2 s2 s3 s4 s5) (nm.length + 8)
        ((c1Text nm nm2 s2 s3 s4 s5).length + 1 - (nm.length + 8)) =
        some (nm.length + 8 + s2.length, (true, nm.length + 9)) :=
      searchRem_found _ _ _ _ _ _ (by omega) (by omega) hM1 (by omega)
        (fun q hq hq2 => hf1 q hq hq2)
    have hs2 : searchRem (markerRem nm) (c1Text nm nm2 s2 s3 s4 s5)
        (nm.length + 8 + s2.length + (nm.length + 9))
        ((c1Text nm nm2 s2 s3 s4 s5).length + 1 -
          (nm.length + 8 + s2.length + (nm.length + 9))) =
        some (nm.length + 8 + s2.length + (nm.length + 9) + s3.length,
          (false, nm.length + 6)) :=
      searchRem_found _ _ _ _ _ _ (by omega) (by omega) hM2 (by omega)
        (fun q hq hq2 => hf2 q hq hq2)
    have hs3 : searchRem (markerRem nm) (c1Text nm nm2 s2 s3 s4 s5)
        (nm.length + 8 + s2.length + (nm.length + 9) + s3.length + (nm.length + 6))
        ((c1Text nm nm2 s2 s3 s4 s5).length + 1 -
          (nm.length + 8 + s2.length + (nm.length + 9) + s3.length + (nm.length + 6))) =
        some (nm.length + 8 + s2.length + (nm.length + 9) + s3.length + (nm.length + 6) +
          s4.length, (false, nm.length + 7)) :=
      searchRem_found _ _ _ _ _ _ (by omega) (by omega) hM3 (by omega)
        (fun q hq hq2 => hf3 q hq hq2)
    have hslice : ((c1Text nm nm2 s2 s3 s4 s5).drop (nm.length + 8)).take
        (nm.length + 8 + s2.length + (nm.length + 9) + s3.length + (nm.length + 6) +
          s4.length - (nm.length + 8)) =
        s2 ++ beginChunkStar nm2 ++ s3 ++ endChunk nm2 ++ s4 := by
      rw [hd0]
      rw [show nm.length + 8 + s2.length + (nm.length + 9) + s3.length + (nm.length + 6) +
          s4.length - (nm.length + 8) =
          (s2 ++ beginChunkStar nm2 ++ s3 ++ endChunk nm2 ++ s4).length from by
        simp [beginChunkStar_length, endChunk_length, hlen2]
        omega]
      exact List.take_left _ _
    simp only [extract_environment, hnm]
    rw [envLoop_step_open nm (c1Text nm nm2 s2 s3 s4 s5) (nm.length + 8) (nm.length + 8)
      1 ((c1Text nm nm2 s2 s3 s4 s5).length) (nm.length + 8 + s2.length) (nm.length + 9)
      ⟨by omega, by omega⟩ hs1]
    rw [show (c1Text nm nm2 s2 s3 s4 s5).length =
      ((c1Text nm nm2 s2 s3 s4 s5).length - 1) + 1 from by omega]
    rw [envLoop_step_close nm (c1Text nm nm2 s2 s3 s4 s5) (nm.length + 8)
      (nm.length + 8 + s2.length + (nm.length + 9)) 2
      ((c1Text nm nm2 s2 s3 s4 s5).length - 1)
      (nm.length + 8 + s2.length + (nm.length + 9) + s3.length) (nm.length + 6)
      ⟨by omega, by omega⟩ hs2 (by omega)]
    rw [show (c1Text nm nm2 s2 s3 s4 s5).length - 1 =
      ((c1Text nm nm2 s2 s3 s4 s5).length - 2) + 1 from by omega]
    rw [envLoop_step_close0 nm (c1Text nm nm2 s2 s3 s4 s5) (nm.length + 8)
      (nm.length + 8 + s2.length + (nm.length + 9) + s3.length + (nm.length + 6)) 1
      ((c1Text nm nm2 s2 s3 s4 s5).length - 2)
      (nm.length + 8 + s2.length + (nm.length + 9) + s3.length + (nm.length + 6) +
        s4.length) (nm.length + 7)
      ⟨by omega, by omega⟩ hs3 (by omega)]
    rw [hslice]
  · intro envType nm s2 hnm hfree
    have hdrop : (beginChunk nm ++ s2).drop (nm.length + 8) = s2 := by
      rw [show nm.length + 8 = (beginChunk nm).length from (beginChunk_length nm).symm]
      exact List.drop_left _ _
    simp only [extract_environment, hnm]
    rw [envLoop_none nm (beginChunk nm ++ s2) (nm.length + 8) (nm.length + 8) 1
      (by have := beginChunk_length nm; simp [List.length_append]; omega)
      (fun q hq hq2 => hfree q (by omega) hq2)]
    rw [hdrop]

/-- Witness for C1: scanning `thm*` (star stripped to `thm`) over a
document with a nested starred `THM` pair inside, and the no-close
case. -/
theorem C1_witness :
    extract_environment
        (c1Text ("thm".toList) ("THM".toList) (" A ".toList) ("B".toList) ("C".toList)
          ("D".toList)) 11 ("thm*".toList) =
      (" A ".toList ++ beginChunkStar ("THM".toList) ++ "B".toList ++
        endChunk ("THM".toList) ++ "C".toList, 47)
    ∧ extract_environment (beginChunk ("thm".toList) ++ " oops".toList) 11
        ("thm".toList) =
      (" oops".toList, 16) :=
  ⟨C1_balanced_scanner.1 ("thm*".toList) ("thm".toList) ("THM".toList) (" A ".toList)
      ("B".toList) ("C".toList) ("D".toList) (by decide) (by decide) (by decide)
      (by decide) (by decide),
   C1_balanced_scanner.2 ("thm".toList) ("thm".toList) (" oops".toList) (by decide)
     (by decide)⟩

theorem tryKw_none_closed (kw w chunk r : List Char)
    (hstar : ciMatch ((('\\' :: kw ++ '\x7b' :: w) ++ ['*', '\x7d']).take chunk.length)
      chunk = false)
    (hnostar : ciMatch ((('\\' :: kw ++ '\x7b' :: w) ++ ['\x7d']).take chunk.length)
      chunk = false) :
    tryKw kw w (chunk ++ r) = none := by
  simp only [tryKw]
  rw [ciMatch_append_of_take _ _ _ hstar, ciMatch_append_of_take _ _ _ hnostar]
  simp

theorem tryKw_beginChunk_self (nm r : List Char) :
    tryKw beginKw nm (beginChunk nm ++ r) = some (nm.length + 8) := by
  simp only [beginChunk]
  rw [tryKw_chunk_nostar beginKw nm nm r rfl]
  rw [show beginKw.length = 5 from rfl, show 5 + nm.length + 3 = nm.length + 8 from by
    omega]

theorem tryKw_endChunk_self (nm r : List Char) :
    tryKw endKw nm (endChunk nm ++ r) = some (nm.length + 6) := by
  simp only [endChunk]
  rw [tryKw_chunk_nostar endKw nm nm r rfl]
  rw [show endKw.length = 3 from rfl, show 3 + nm.length + 3 = nm.length + 6 from by
    omega]

/-- The proof-start alternation on a `\begin{<v>}` chunk of any
registered synonym `v` matches with length `v.length + 8`: every
earlier alternative fails inside the chunk, then `v` itself matches. -/
theorem proofStartRem_chunk (v : List Char) (hv : v ∈ proofVariants) (r : List Char) :
    proofStartRem (beginChunk v ++ r) = some (v.length + 8) := by
  fin_cases hv
  · simp only [proofStartRem, proofVariants, altKw]
    rw [tryKw_beginChunk_self _ r]
  · simp only [proofStartRem, proofVariants, altKw]
    rw [tryKw_none_closed beginKw (['p', 'r', 'o', 'o', 'f'])
        (beginChunk (['p', 'r', 'u', 'e', 'b', 'a'])) r (by decide) (by decide),
      tryKw_beginChunk_self _ r]
  · simp only [proofStartRem, proofVariants, altKw]
    rw [tryKw_none_closed beginKw (['p', 'r', 'o', 'o', 'f'])
        (beginChunk (['d', 'e', 'm', 'o', 's', 't', 'r', 'a', 'c', 'i', 'o', 'n'])) r
        (by decide) (by decide),
      tryKw_none_closed beginKw (['p', 'r', 'u', 'e', 'b', 'a'])
        (beginChunk (['d', 'e', 'm', 'o', 's', 't', 'r', 'a', 'c', 'i', 'o', 'n'])) r
        (by decide) (by decide),
      tryKw_beginChunk_self _ r]
  · simp only [proofStartRem, proofVariants, altKw]
    rw [tryKw_none_closed beginKw (['p', 'r', 'o', 'o', 'f'])
        (beginChunk (['d', 'e', 'm', 'o', 's', 't', 'r', 'a', 'c', 'i', 'ó', 'n'])) r
        (by decide) (by decide),
      tryKw_none_closed beginKw (['p', 'r', 'u', 'e', 'b', 'a'])
        (beginChunk (['d', 'e', 'm', 'o', 's', 't', 'r', 'a', 'c', 'i', 'ó', 'n'])) r
        (by decide) (by decide),
      tryKw_none_closed beginKw (['d', 'e', 'm', 'o', 's', 't', 'r', 'a', 'c', 'i', 'o', 'n'])
        (beginChunk (['d', 'e', 'm', 'o', 's', 't', 'r', 'a', 'c', 'i', 'ó', 'n'])) r
        (by decide) (by decide),
      tryKw_beginChunk_self _ r]
  · simp only [proofStartRem, proofVariants, altKw]
    rw [tryKw_none_closed beginKw (['p', 'r', 'o', 'o', 'f'])
        (beginChunk (['d', 'e', 'm'])) r (by decide) (by decide),
      tryKw_none_closed beginKw (['p', 'r', 'u', 'e', 'b', 'a'])
        (beginChunk (['d', 'e', 'm'])) r (by decide) (by decide),
      tryKw_none_closed beginKw (['d', 'e', 'm', 'o', 's', 't', 'r', 'a', 'c', 'i', 'o', 'n'])
        (beginChunk (['d', 'e', 'm'])) r (by decide) (by decide),
      tryKw_none_closed beginKw (['d', 'e', 'm', 'o', 's', 't', 'r', 'a', 'c', 'i', 'ó', 'n'])
        (beginChunk (['d', 'e', 'm'])) r (by decide) (by decide),
      tryKw_beginChunk_self _ r]

/-- Same for the proof-end alternation on an `\end{<v>}` chunk. -/
theorem proofEndRem_chunk (v : List Char) (hv : v ∈ proofVariants) (r : List Char) :
    proofEndRem (endChunk v ++ r) = some (v.length + 6) := by
  fin_cases hv
  · simp only [proofEndRem, proofVariants, altKw]
    rw [tryKw_endChunk_self _ r]
  · simp only [proofEndRem, proofVariants, altKw]
    rw [tryKw_none_closed endKw (['p', 'r', 'o', 'o', 'f'])
        (endChunk (['p', 'r', 'u', 'e', 'b', 'a'])) r (by decide) (by decide),
      tryKw_endChunk_self _ r]
  · simp only [proofEndRem, proofVariants, altKw]
    rw [tryKw_none_closed endKw (['p', 'r', 'o', 'o', 'f'])
        (endChunk (['d', 'e', 'm', 'o', 's', 't', 'r', 'a', 'c', 'i', 'o', 'n'])) r
        (by decide) (by decide),
      tryKw_none_closed endKw (['p', 'r', 'u', 'e', 'b', 'a'])
        (endChunk (['d', 'e', 'm', 'o', 's', 't', 'r', 'a', 'c', 'i', 'o', 'n'])) r
        (by decide) (by decide),
      tryKw_endChunk_self _ r]
  · simp only [proofEndRem, proofVariants, altKw]
    rw [tryKw_none_closed endKw (['p', 'r', 'o', 'o', 'f'])
        (endChunk (['d', 'e', 'm', 'o', 's', 't', 'r', 'a', 'c', 'i', 'ó', 'n'])) r
        (by decide) (by decide),
      tryKw_none_closed endKw (['p', 'r', 'u', 'e', 'b', 'a'])
        (endChunk (['d', 'e', 'm', 'o', 's', 't', 'r', 'a', 'c', 'i', 'ó', 'n'])) r
        (by decide) (by decide),
      tryKw_none_closed endKw (['d', 'e', 'm', 'o', 's', 't', 'r', 'a', 'c', 'i', 'o', 'n'])
        (endChunk (['d', 'e', 'm', 'o', 's', 't', 'r', 'a', 'c', 'i', 'ó', 'n'])) r
        (by decide) (by decide),
      tryKw_endChunk_self _ r]
  · simp only [proofEndRem, proofVariants, altKw]
    rw [tryKw_none_closed endKw (['p', 'r', 'o', 'o', 'f'])
        (endChunk (['d', 'e', 'm'])) r (by decide) (by decide),
      tryKw_none_closed endKw (['p', 'r', 'u', 'e', 'b', 'a'])
        (endChunk (['d', 'e', 'm'])) r (by decide) (by decide),
      tryKw_none_closed endKw (['d', 'e', 'm', 'o', 's', 't', 'r', 'a', 'c', 'i', 'o', 'n'])
        (endChunk (['d', 'e', 'm'])) r (by decide) (by decide),
      tryKw_none_closed endKw (['d', 'e', 'm', 'o', 's', 't', 'r', 'a', 'c', 'i', 'ó', 'n'])
        (endChunk (['d', 'e', 'm'])) r (by decide) (by decide),
      tryKw_endChunk_self _ r]

theorem proofLoop_step_open (text : List Char) (pcs cur d f bp bk ep ek : Nat)
    (hguard : 0 < d ∧ cur < text.length)
    (hb : searchRem proofStartRem text cur (text.length + 1 - cur) = some (bp, bk))
    (he : searchRem proofEndRem text cur (text.length + 1 - cur) = some (ep, ek))
    (hlt : bp < ep) :
    proofLoop text pcs cur (f + 1) d = proofLoop text pcs (bp + bk) f (d + 1) := by
  simp only [proofLoop]
  rw [if_pos hguard, hb, he]
  dsimp only
  rw [if_pos hlt]

theorem proofLoop_step_close_none (text : List Char) (pcs cur d f ep ek : Nat)
    (hguard : 0 < d ∧ cur < text.length)
    (hb : searchRem proofStartRem text cur (text.length + 1 - cur) = none)
    (he : searchRem proofEndRem text cur (text.length + 1 - cur) = some (ep, ek))
    (hd : ¬ d - 1 = 0) :
    proofLoop text pcs cur (f + 1) d = proofLoop text pcs (ep + ek) f (d - 1) := by
  simp only [proofLoop]
  rw [if_pos hguard, hb, he]
  dsimp only
  rw [if_neg hd]

theorem proofLoop_step_close0_none (text : List Char) (pcs cur d f ep ek : Nat)
    (hguard : 0 < d ∧ cur < text.length)
    (hb : searchRem proofStartRem text cur (text.length + 1 - cur) = none)
    (he : searchRem proofEndRem text cur (text.length + 1 - cur) = some (ep, ek))
    (hd : d - 1 = 0) :
    proofLoop text pcs cur (f + 1) d = ((text.drop pcs).take (ep - pcs), ep + ek) := by
  simp only [proofLoop]
  rw [if_pos hguard, hb, he]
  dsimp only
  rw [if_pos hd]

theorem proofLoop_none (text : List Char) (pcs cur d : Nat)
    (hcur : cur ≤ text.length)
    (hsf : ∀ q, q ≤ text.length → cur ≤ q → proofStartRem (text.drop q) = none)
    (hef : ∀ q, q ≤ text.length → cur ≤ q → proofEndRem (text.drop q) = none) :
    ∀ fuel, proofLoop text pcs cur fuel d = (text.drop pcs, text.length) := by
  intro fuel
  cases fuel with
  | zero => rfl
  | succ f =>
    simp only [proofLoop]
    split
    · rw [searchRem_none proofStartRem text _ _ hcur hsf,
        searchRem_none proofEndRem text _ _ hcur hef]
    · rfl

/-- No proof opening marker matches at any position `q` with
`lo ≤ q < hi`. -/
def startFree (text : List Char) (lo hi : Nat) : Prop :=
  ∀ q, q < hi → lo ≤ q → proofStartRem (text.drop q) = none

instance startFreeDec (text : List Char) (lo hi : Nat) :
    Decidable (startFree text lo hi) := by
  unfold startFree
  infer_instance

/-- No proof closing marker matches at any position `q` with
`lo ≤ q < hi`. -/
def endFree (text : List Char) (lo hi : Nat) : Prop :=
  ∀ q, q < hi → lo ≤ q → proofEndRem (text.drop q) = none

instance endFreeDec (text : List Char) (lo hi : Nat) :
    Decidable (endFree text lo hi) := by
  unfold endFree
  infer_instance

/-- The document shape of the cross-synonym nesting scenario: a proof
opened with synonym `v1`, a nested proof opened with synonym `v2`,
closed with a different synonym `v3`, and the outer proof closed with
synonym `v4`. -/
def c5Text (v1 v2 v3 v4 s2 s3 s4 s5 : List Char) : List Char :=
  beginChunk v1 ++ s2 ++ beginChunk v2 ++ s3 ++ endChunk v3 ++ s4 ++
    endChunk v4 ++ s5

/-- Claim C5: `extract_proof` tracks nesting depth across all
proof-kind synonyms interchangeably.  Conjunct 1: a proof opened with
synonym `v1` containing a nested proof opened with synonym `v2` and
closed with a *different* synonym `v3` is balanced before the outer
proof, which is itself closed by yet another synonym `v4`; the returned
content is the slice up to the outer closing marker's start and the
returned offset is just past it.  Conjunct 2: with no closing marker,
the proof content extends to end-of-document. -/
theorem C5_proof_synonym_nesting :
    (∀ (v1 v2 v3 v4 s2 s3 s4 s5 : List Char),
      v1 ∈ proofVariants → v2 ∈ proofVariants → v3 ∈ proofVariants →
      v4 ∈ proofVariants →
      startFree (c5Text v1 v2 v3 v4 s2 s3 s4 s5) (v1.length + 8)
        (v1.length + 8 + s2.length) →
      startFree (c5Text v1 v2 v3 v4 s2 s3 s4 s5)
        (v1.length + 8 + s2.length + (v2.length + 8))
        ((c5Text v1 v2 v3 v4 s2 s3 s4 s5).length + 1) →
      endFree (c5Text v1 v2 v3 v4 s2 s3 s4 s5) (v1.length + 8)
        (v1.length + 8 + s2.length + (v2.length + 8) + s3.length) →
      endFree (c5Text v1 v2 v3 v4 s2 s3 s4 s5)
        (v1.length + 8 + s2.length + (v2.length + 8) + s3.length + (v3.length + 6))
        (v1.length + 8 + s2.length + (v2.length + 8) + s3.length + (v3.length + 6) +
          s4.length) →
      extract_proof (c5Text v1 v2 v3 v4 s2 s3 s4 s5) 0 =
        some (s2 ++ beginChunk v2 ++ s3 ++ endChunk v3 ++ s4,
          v1.length + 8 + s2.length + (v2.length + 8) + s3.length + (v3.length + 6) +
            s4.length + (v4.length + 6)))
    ∧ (∀ (v1 s2 : List Char), v1 ∈ proofVariants →
      startFree (beginChunk v1 ++ s2) (v1.length + 8)
        ((beginChunk v1 ++ s2).length + 1) →
      endFree (beginChunk v1 ++ s2) (v1.length + 8)
        ((beginChunk v1 ++ s2).length + 1) →
      extract_proof (beginChunk v1 ++ s2) 0 =
        some (s2, (beginChunk v1 ++ s2).length)) := by
  constructor
  · intro v1 v2 v3 v4 s2 s3 s4 s5 hv1 hv2 hv3 hv4 hS1 hS2 hE1 hE2
    have hTlen : (c5Text v1 v2 v3 v4 s2 s3 s4 s5).length =
        v1.length + 8 + s2.length + (v2.length + 8) + s3.length + (v3.length + 6) +
          s4.length + (v4.length + 6) + s5.length := by
      simp [c5Text, beginChunk_length, endChunk_length]
      omega
    have hd0 : (c5Text v1 v2 v3 v4 s2 s3 s4 s5).drop (v1.length + 8) =
        (s2 ++ beginChunk v2 ++ s3 ++ endChunk v3 ++ s4) ++ (endChunk v4 ++ s5) := by
      rw [show c5Text v1 v2 v3 v4 s2 s3 s4 s5 = beginChunk v1 ++
          ((s2 ++ beginChunk v2 ++ s3 ++ endChunk v3 ++ s4) ++ (endChunk v4 ++ s5))
          from by simp [c5Text, List.append_assoc]]
      rw [show v1.length + 8 = (beginChunk v1).length from (beginChunk_length v1).symm]
      exact List.drop_left _ _
    have hd1 : (c5Text v1 v2 v3 v4 s2 s3 s4 s5).drop (v1.length + 8 + s2.length) =
        beginChunk v2 ++ (s3 ++ (endChunk v3 ++ (s4 ++ (endChunk v4 ++ s5)))) := by
      rw [show c5Text v1 v2 v3 v4 s2 s3 s4 s5 = (beginChunk v1 ++ s2) ++
          (beginChunk v2 ++ (s3 ++ (endChunk v3 ++ (s4 ++ (endChunk v4 ++ s5)))))
          from by simp [c5Text, List.append_assoc]]
      rw [show v1.length + 8 + s2.length = (beginChunk v1 ++ s2).length from by
        simp [beginChunk_length]]
      exact List.drop_left _ _
    have hd2 : (c5Text v1 v2 v3 v4 s2 s3 s4 s5).drop
        (v1.length + 8 + s2.length + (v2.length + 8) + s3.length) =
        endChunk v3 ++ (s4 ++ (endChunk v4 ++ s5)) := by
      rw [show c5Text v1 v2 v3 v4 s2 s3 s4 s5 =
          (beginChunk v1 ++ s2 ++ beginChunk v2 ++ s3) ++
          (endChunk v3 ++ (s4 ++ (endChunk v4 ++ s5)))
          from by simp [c5Text, List.append_assoc]]
      rw [show v1.length + 8 + s2.length + (v2.length + 8) + s3.length =
          (beginChunk v1 ++ s2 ++ beginChunk v2 ++ s3).length from by
        simp [beginChunk_length]
        omega]
      exact List.drop_left _ _
    have hd3 : (c5Text v1 v2 v3 v4 s2 s3 s4 s5).drop
        (v1.length + 8 + s2.length + (v2.length + 8) + s3.length + (v3.length + 6) +
          s4.length) = endChunk v4 ++ s5 := by
      rw [show c5Text v1 v2 v3 v4 s2 s3 s4 s5 =
          (beginChunk v1 ++ s2 ++ beginChunk v2 ++ s3 ++ endChunk v3 ++ s4) ++
          (endChunk v4 ++ s5)
          from by simp [c5Text, List.append_assoc]]
      rw [show v1.length + 8 + s2.length + (v2.length + 8) + s3.length +
          (v3.length + 6) + s4.length =
          (beginChunk v1 ++ s2 ++ beginChunk v2 ++ s3 ++ endChunk v3 ++ s4).length
          from by
        simp [beginChunk_length, endChunk_length]
        omega]
      exact List.drop_left _ _
    have hM0 : proofStartRem ((c5Text v1 v2 v3 v4 s2 s3 s4 s5).drop 0) =
        some (v1.length + 8) := by
      rw [List.drop_zero]
      rw [show c5Text v1 v2 v3 v4 s2 s3 s4 s5 = beginChunk v1 ++
          (s2 ++ beginChunk v2 ++ s3 ++ endChunk v3 ++ s4 ++ endChunk v4 ++ s5)
          from by simp [c5Text, List.append_assoc]]
      exact proofStartRem_chunk v1 hv1 _
    have hM1 : proofStartRem ((c5Text v1 v2 v3 v4 s2 s3 s4 s5).drop
        (v1.length + 8 + s2.length)) = some (v2.length + 8) := by
      rw [hd1]
      exact proofStartRem_chunk v2 hv2 _
    have hM2 : proofEndRem ((c5Text v1 v2 v3 v4 s2 s3 s4 s5).drop
        (v1.length + 8 + s2.length + (v2.length + 8) + s3.length)) =
        some (v3.length + 6) := by
      rw [hd2]
      exact proofEndRem_chunk v3 hv3 _
    have hM3 : proofEndRem ((c5Text v1 v2 v3 v4 s2 s3 s4 s5).drop
        (v1.length + 8 + s2.length + (v2.length + 8) + s3.length + (v3.length + 6) +
          s4.length)) = some (v4.length + 6) := by
      rw [hd3]
      exact proofEndRem_chunk v4 hv4 _
    have hslice : ((c5Text v1 v2 v3 v4 s2 s3 s4 s5).drop (v1.length + 8)).take
        (v1.length + 8 + s2.length + (v2.length + 8) + s3.length + (v3.length + 6) +
          s4.length - (v1.length + 8)) =
        s2 ++ beginChunk v2 ++ s3 ++ endChunk v3 ++ s4 := by
      rw [hd0]
      rw [show v1.length + 8 + s2.length + (v2.length + 8) + s3.length +
          (v3.length + 6) + s4.length - (v1.length + 8) =
          (s2 ++ beginChunk v2 ++ s3 ++ endChunk v3 ++ s4).length from by
        simp [beginChunk_length, endChunk_length]
        omega]
      exact List.take_left _ _
    have hs0 : searchRem proofStartRem ((c5Text v1 v2 v3 v4 s2 s3 s4 s5).drop 0) 0
        (((c5Text v1 v2 v3 v4 s2 s3 s4 s5).drop 0).length + 1) =
        some (0, v1.length + 8) :=
      searchRem_found _ _ _ 0 0 _ (by omega) (Nat.le_refl 0)
        (by rw [List.drop_drop]; simpa using hM0) (Nat.zero_le _)
        (fun q hq hq2 => by omega)
    have hb1 : searchRem proofStartRem (c5Text v1 v2 v3 v4 s2 s3 s4 s5)
        (v1.length + 8)
        ((c5Text v1 v2 v3 v4 s2 s3 s4 s5).length + 1 - (v1.length + 8)) =
        some (v1.length + 8 + s2.length, v2.length + 8) :=
      searchRem_found _ _ _ _ _ _ (by omega) (by omega) hM1 (by omega)
        (fun q hq hq2 => hS1 q hq hq2)
    have he1 : searchRem proofEndRem (c5Text v1 v2 v3 v4 s2 s3 s4 s5)
        (v1.length + 8)
        ((c5Text v1 v2 v3 v4 s2 s3 s4 s5).length + 1 - (v1.length + 8)) =
        some (v1.length + 8 + s2.length + (v2.length + 8) + s3.length,
          v3.length + 6) :=
      searchRem_found _ _ _ _ _ _ (by omega) (by omega) hM2 (by omega)
        (fun q hq hq2 => hE1 q hq hq2)
    have hb2 : searchRem proofStartRem (c5Text v1 v2 v3 v4 s2 s3 s4 s5)
        (v1.length + 8 + s2.length + (v2.length + 8))
        ((c5Text v1 v2 v3 v4 s2 s3 s4 s5).length + 1 -
          (v1.length + 8 + s2.length + (v2.length + 8))) = none :=
      searchRem_none _ _ _ _ (by omega) (fun q hq hq2 => hS2 q (by omega) hq2)
    have he2 : searchRem proofEndRem (c5Text v1 v2 v3 v4 s2 s3 s4 s5)
        (v1.length + 8 + s2.length + (v2.length + 8))
        ((c5Text v1 v2 v3 v4 s2 s3 s4 s5).length + 1 -
          (v1.length + 8 + s2.length + (v2.length + 8))) =
        some (v1.length + 8 + s2.length + (v2.length + 8) + s3.length,
          v3.length + 6) :=
      searchRem_found _ _ _ _ _ _ (by omega) (by omega) hM2 (by omega)
        (fun q hq hq2 => hE1 q hq (by omega))
    have hb3 : searchRem proofStartRem (c5Text v1 v2 v3 v4 s2 s3 s4 s5)
        (v1.length + 8 + s2.length + (v2.length + 8) + s3.length + (v3.length + 6))
        ((c5Text v1 v2 v3 v4 s2 s3 s4 s5).length + 1 -
          (v1.length + 8 + s2.length + (v2.length + 8) + s3.length +
            (v3.length + 6))) = none :=
      searchRem_none _ _ _ _ (by omega) (fun q hq hq2 => hS2 q (by omega) (by omega))
    have he3 : searchRem proofEndRem (c5Text v1 v2 v3 v4 s2 s3 s4 s5)
        (v1.length + 8 + s2.length + (v2.length + 8) + s3.length + (v3.length + 6))
        ((c5Text v1 v2 v3 v4 s2 s3 s4 s5).length + 1 -
          (v1.length + 8 + s2.length + (v2.length + 8) + s3.length +
            (v3.length + 6))) =
        some (v1.length + 8 + s2.length + (v2.length + 8) + s3.length +
          (v3.length + 6) + s4.length, v4.length + 6) :=
      searchRem_found _ _ _ _ _ _ (by omega) (by omega) hM3 (by omega)
        (fun q hq hq2 => hE2 q hq hq2)
    simp only [extract_proof, hs0]
    rw [if_neg (by simp [pystrip])]
    simp only [Nat.zero_add, Nat.add_zero]
    rw [show (c5Text v1 v2 v3 v4 s2 s3 s4 s5).length + 1 =
      ((c5Text v1 v2 v3 v4 s2 s3 s4 s5).length) + 1 from rfl]
    rw [proofLoop_step_open (c5Text v1 v2 v3 v4 s2 s3 s4 s5) (v1.length + 8)
      (v1.length + 8) 1 ((c5Text v1 v2 v3 v4 s2 s3 s4 s5).length)
      (v1.length + 8 + s2.length) (v2.length + 8)
      (v1.length + 8 + s2.length + (v2.length + 8) + s3.length) (v3.length + 6)
      ⟨by omega, by omega⟩ hb1 he1 (by omega)]
    rw [show (c5Text v1 v2 v3 v4 s2 s3 s4 s5).length =
      ((c5Text v1 v2 v3 v4 s2 s3 s4 s5).length - 1) + 1 from by omega]
    rw [proofLoop_step_close_none (c5Text v1 v2 v3 v4 s2 s3 s4 s5) (v1.length + 8)
      (v1.length + 8 + s2.length + (v2.length + 8)) 2
      ((c5Text v1 v2 v3 v4 s2 s3 s4 s5).length - 1)
      (v1.length + 8 + s2.length + (v2.length + 8) + s3.length) (v3.length + 6)
      ⟨by omega, by omega⟩ hb2 he2 (by omega)]
    rw [show (c5Text v1 v2 v3 v4 s2 s3 s4 s5).length - 1 =
      ((c5Text v1 v2 v3 v4 s2 s3 s4 s5).length - 2) + 1 from by omega]
    rw [proofLoop_step_close0_none (c5Text v1 v2 v3 v4 s2 s3 s4 s5) (v1.length + 8)
      (v1.length + 8 + s2.length + (v2.length + 8) + s3.length + (v3.length + 6)) 1
      ((c5Text v1 v2 v3 v4 s2 s3 s4 s5).length - 2)
      (v1.length + 8 + s2.length + (v2.length + 8) + s3.length + (v3.length + 6) +
        s4.length) (v4.length + 6)
      ⟨by omega, by omega⟩ hb3 he3 (by omega)]
    rw [hslice]
  · intro v1 s2 hv1 hS hE
    have hM0 : proofStartRem ((beginChunk v1 ++ s2).drop 0) = some (v1.length + 8) := by
      rw [List.drop_zero]
      exact proofStartRem_chunk v1 hv1 _
    have hs0 : searchRem proofStartRem ((beginChunk v1 ++ s2).drop 0) 0
        (((beginChunk v1 ++ s2).drop 0).length + 1) = some (0, v1.length + 8) :=
      searchRem_found _ _ _ 0 0 _ (by omega) (Nat.le_refl 0)
        (by rw [List.drop_drop]; simpa using hM0) (Nat.zero_le _)
        (fun q hq hq2 => by omega)
    have hdrop : (beginChunk v1 ++ s2).drop (v1.length + 8) = s2 := by
      rw [show v1.length + 8 = (beginChunk v1).length from (beginChunk_length v1).symm]
      exact List.drop_left _ _
    simp only [extract_proof, hs0]
    rw [if_neg (by simp [pystrip])]
    simp only [Nat.zero_add, Nat.add_zero]
    rw [proofLoop_none (beginChunk v1 ++ s2) (v1.length + 8) (v1.length + 8) 1
      (by simp [beginChunk_length])
      (fun q hq hq2 => hS q (by omega) hq2)
      (fun q hq hq2 => hE q (by omega) hq2) _]
    rw [hdrop]

/-- Witness for C5: a `proof` opened, a nested `demostracion` closed by
`prueba`, the outer proof closed by `dem`; and the no-close case. -/
theorem C5_witness :
    extract_proof
        (c5Text ("proof".toList) ("demostracion".toList) ("prueba".toList)
          ("dem".toList) (" A ".toList) ("B".toList) ("C".toList) ("D".toList)) 0 =
      some (" A ".toList ++ beginChunk ("demostracion".toList) ++ "B".toList ++
        endChunk ("prueba".toList) ++ "C".toList, 59)
    ∧ extract_proof (beginChunk ("dem".toList) ++ " done".toList) 0 =
      some (" done".toList, 16) :=
  ⟨C5_proof_synonym_nesting.1 ("proof".toList) ("demostracion".toList)
      ("prueba".toList) ("dem".toList) (" A ".toList) ("B".toList) ("C".toList)
      ("D".toList) (by decide) (by decide) (by decide) (by decide) (by decide)
      (by decide) (by decide) (by decide),
   C5_proof_synonym_nesting.2 ("dem".toList) (" done".toList) (by decide) (by decide)
     (by decide)⟩

theorem takeWhile_append_all (p : Char → Bool) :
    ∀ (a b : List Char), (∀ x ∈ a, p x = true) →
      (a ++ b).takeWhile p = a ++ b.takeWhile p := by
  intro a
  induction a with
  | nil => intro b _; rfl
  | cons x xs ih =>
    intro b h
    simp only [List.cons_append, List.takeWhile_cons]
    rw [h x (by simp)]
    simp only [if_true]
    rw [ih b (fun y hy => h y (by simp [hy]))]

theorem splitLines_chars : ∀ (l : List Char) (line : List Char),
    line ∈ splitLines l → ∀ c ∈ line, c ∈ l := by
  intro l
  induction l with
  | nil =>
    intro line hline c hc
    simp [splitLines] at hline
    subst hline
    simp at hc
  | cons x xs ih =>
    intro line hline c hc
    simp only [splitLines] at hline
    cases hsp : splitLines xs with
    | nil =>
      rw [hsp] at hline
      simp at hline
      subst hline
      simp at hc
    | cons l0 ls =>
      simp only [hsp] at hline
      by_cases hx : x = '\n'
      · rw [if_pos hx] at hline
        simp only [List.mem_cons] at hline
        rcases hline with h | h | h
        · subst h; simp at hc
        · have := ih l0 (by rw [hsp]; simp) c (h ▸ hc)
          simp [this]
        · have := ih line (by rw [hsp]; simp [h]) c hc
          simp [this]
      · rw [if_neg hx] at hline
        simp only [List.mem_cons] at hline
        rcases hline with h | h
        · subst h
          simp only [List.mem_cons] at hc
          rcases hc with h | h
          · simp [h]
          · have := ih l0 (by rw [hsp]; simp) c h
            simp [this]
        · have := ih line (by rw [hsp]; simp [h]) c hc
          simp [this]

theorem findCommentPosGo_none : ∀ (line : List Char) (i : Nat) (prev : Option Char),
    '%' ∉ line → findCommentPosGo line i prev = none := by
  intro line
  induction line with
  | nil => intro i prev _; rfl
  | cons c rest ih =>
    intro i prev h
    simp only [findCommentPosGo]
    rw [if_neg]
    · exact ih (i + 1) (some c) (fun hc => h (by simp [hc]))
    · intro hcon
      exact h (by simp [hcon.1])

theorem stripCommentLine_id (line : List Char) (h : '%' ∉ line) :
    stripCommentLine line = line := by
  simp only [stripCommentLine, findCommentPos]
  rw [findCommentPosGo_none line 0 none h]

theorem splitLines_ne_nil : ∀ l : List Char, splitLines l ≠ [] := by
  intro l
  cases l with
  | nil => simp [splitLines]
  | cons c rest =>
    simp only [splitLines]
    cases hsp : splitLines rest with
    | nil => simp
    | cons a as =>
      dsimp only
      split <;> simp

theorem joinLines_splitLines : ∀ l : List Char, joinLines (splitLines l) = l := by
  intro l
  induction l with
  | nil => rfl
  | cons c rest ih =>
    simp only [splitLines]
    cases hsp : splitLines rest with
    | nil => exact absurd hsp (splitLines_ne_nil rest)
    | cons l0 ls =>
      rw [hsp] at ih
      dsimp only
      by_cases hc : c = '\n'
      · rw [if_pos hc, hc]
        cases ls with
        | nil =>
          simp only [joinLines, List.nil_append] at ih ⊢
          rw [ih]
        | cons a as =>
          simp only [joinLines, List.nil_append] at ih ⊢
          rw [ih]
      · rw [if_neg hc]
        cases ls with
        | nil =>
          simp only [joinLines] at ih ⊢
          rw [ih]
        | cons a as =>
          simp only [joinLines] at ih ⊢
          rw [List.cons_append, ih]

theorem map_id_of_mem {α : Type} (l : List α) (f : α → α) (h : ∀ x ∈ l, f x = x) :
    l.map f = l := by
  induction l with
  | nil => rfl
  | cons a as ih =>
    simp only [List.map_cons]
    rw [h a (by simp), ih (fun x hx => h x (by simp [hx]))]

theorem remove_comments_id (l : List Char) (h : '%' ∉ l) : remove_comments l = l := by
  simp only [remove_comments]
  have hmap : (splitLines l).map stripCommentLine = splitLines l :=
    map_id_of_mem (splitLines l) stripCommentLine (fun line hline => stripCommentLine_id line
      (fun hc => h (splitLines_chars l line hline '%' hc)))
  rw [hmap, joinLines_splitLines]

theorem processMatch_title (text : List Char) (p : Nat) (em : EnvM)
    (b : Block) (n : Nat) :
    processMatch text p em = (some b, n) →
      (em.titleGroup = none → b.title = none) ∧
      (em.titleGroup = some [] → b.title = none) ∧
      (∀ g, em.titleGroup = some g → g ≠ [] → b.title = some (pystrip g)) := by
  obtain ⟨bt, bl, bti, bc, bp, br⟩ := b
  intro h
  simp only [processMatch] at h
  split at h
  · simp at h
  · split at h
    · simp only [Prod.mk.injEq, Option.some.injEq, Block.mk.injEq] at h
      obtain ⟨⟨_, _, hbti, _, _, _⟩, _⟩ := h
      subst hbti
      refine ⟨fun hg => by simp [hg], fun hg => by simp [hg],
        fun g hg hne => by simp [hg, hne]⟩
    · simp only [Prod.mk.injEq, Option.some.injEq, Block.mk.injEq] at h
      obtain ⟨⟨_, _, hbti, _, _, _⟩, _⟩ := h
      subst hbti
      refine ⟨fun hg => by simp [hg], fun hg => by simp [hg],
        fun g hg hne => by simp [hg, hne]⟩

theorem parseLoop_mem_env (envs : List (List Char)) (text : List Char) :
    ∀ fuel pos b, b ∈ parseLoop envs text pos fuel →
      ∃ p em n, envRem envs (text.drop p) = some em ∧
        processMatch text p em = (some b, n) := by
  intro fuel
  induction fuel with
  | zero => intro pos b h; simp [parseLoop] at h
  | succ f ih =>
    intro pos b h
    simp only [parseLoop] at h
    split at h
    · cases hs : searchRem (envRem envs) text pos (text.length + 1 - pos) with
      | none => rw [hs] at h; simp at h
      | some pe =>
        obtain ⟨p, em⟩ := pe
        simp only [hs] at h
        cases hpm : processMatch text p em with
        | mk ob next =>
          cases ob with
          | some b2 =>
            simp only [hpm, List.mem_cons] at h
            rcases h with h | h
            · subst h
              exact ⟨p, em, next, (searchRem_spec _ text _ pos p em hs).2, hpm⟩
            · exact ih next b h
          | none =>
            simp only [hpm] at h
            exact ih next b h
    · simp at h

def c10doc : List Char := "\\begin\x7btheorem\x7d[ ]abc\\end\x7btheorem\x7d".toList

def c10blk : Block := ⟨"theorem".toList, none, some [], "abc".toList, none, none⟩

/-- Claim C10: every emitted block arises from an `env_pattern` match on
the comment-stripped text, and that match determines the block's title by
the source's `match.group(2).strip() if match.group(2) else None`
(line 385): when the optional bracket group is absent the title is
`none`; when the bracket is present but empty (`[]`, an empty and hence
falsy group) the title is also `none`; and when the bracket text is
nonempty the title is that text with leading and trailing whitespace
trimmed — so a whitespace-only bracket yields a present empty-string
title, not `none`. -/
theorem C10_title_semantics (customs : List (List Char)) (auto : Bool)
    (text : List Char) (b : Block) :
    b ∈ (parse_text customs auto text).1 →
      ∃ p em n,
        envRem (allEnvs (parse_text customs auto text).2)
          ((remove_comments text).drop p) = some em ∧
        processMatch (remove_comments text) p em = (some b, n) ∧
        (em.titleGroup = none → b.title = none) ∧
        (em.titleGroup = some [] → b.title = none) ∧
        (∀ g, em.titleGroup = some g → g ≠ [] → b.title = some (pystrip g)) := by
  intro h
  obtain ⟨p, em, n, henv, hpm⟩ := parseLoop_mem_env _ _ _ _ _ h
  obtain ⟨h1, h2, h3⟩ := processMatch_title _ p em b n hpm
  exact ⟨p, em, n, henv, hpm, h1, h2, h3⟩

/-- Witness for C10: on a document whose opening marker carries the
whitespace-only bracketed title `[ ]`, the emitted block's title is the
present empty string `some []`. -/
theorem C10_witness :
    c10blk ∈ (parse_text [] true c10doc).1
    ∧ ∃ p em n,
        envRem (allEnvs (parse_text [] true c10doc).2)
          ((remove_comments c10doc).drop p) = some em ∧
        processMatch (remove_comments c10doc) p em = (some c10blk, n) ∧
        (em.titleGroup = none → c10blk.title = none) ∧
        (em.titleGroup = some [] → c10blk.title = none) ∧
        (∀ g, em.titleGroup = some g → g ≠ [] →
          c10blk.title = some (pystrip g)) :=
  ⟨by decide, C10_title_semantics [] true c10doc c10blk (by decide)⟩
